import Mathlib

/-!
Verification of the cart and chat-relay logic of the repository.

The repository contains two styles of shopping cart:

* an object-based cart (`ecommerce-site/script.js`): a JS object mapping a
  product id (string) to a quantity, with operations `addToCart`,
  `setQuantity`, `removeFromCart`, `getCartCount`, `getCartTotal`,
  persisted with `saveCart`/`loadCart` under the key
  `mini-ecommerce-cart-v1`;
* two near-identical array-based carts (`script.js`, both halves of the
  file): an array of item objects `{...product, quantity}`, with
  `addToCart(productId)`, `removeFromCart`, `updateQuantity`,
  `updateCartDisplay`, persisted with `saveCartToStorage` /
  `loadCartFromStorage` under the key `cart`;

and a chat front end (`TourismChatbot` in the unnamed chat script) that
relays a user message to `POST /api/chat` and renders the reply.

Modelling conventions:

* JS numbers used as quantities are modelled as `Int` (the UI only ever
  passes integral deltas of `1` and `-1`); prices are modelled as exact
  rationals (`ℚ`), matching the decimal literals of the source.
* `localStorage` is modelled as an association list from key strings to
  value strings (`Storage`); `getItem` returns `Option String`.
* The platform `JSON.stringify` / `JSON.parse` pair is modelled by an
  executable encoder and recursive-descent parser over the fragment of
  JSON that the cart code actually stores and loads: `null`, booleans,
  decimal numbers, strings (with `"` and `\` escapes), flat objects of
  scalars, and arrays of scalars or flat objects.  Nested containers
  beyond array-of-objects never arise from this code.
* DOM rendering is modelled by the data that the render functions write
  into the DOM (counts, row data, totals), not by HTML strings.
-/

/- ### JSON values

Values of the JSON fragment exchanged with `localStorage`. -/
inductive Json where
  | null : Json
  | bool (b : Bool) : Json
  | num (q : ℚ) : Json
  | str (s : String) : Json
  | arr (elems : List Json) : Json
  | obj (members : List (String × Json)) : Json

/- ### Decimal digit printing -/

/-- Character for a single decimal digit `d < 10`. -/
def digitCh (d : Nat) : Char := Char.ofNat (48 + d)

/-- Decimal digits of a natural number, most significant first
(the digit loop of number-to-string conversion). -/
def natChars (n : Nat) : List Char :=
  if _h : n < 10 then [digitCh n]
  else natChars (n / 10) ++ [digitCh (n % 10)]
decreasing_by exact Nat.div_lt_self (by omega) (by omega)

/-- Decimal rendering of an integer, with a leading minus sign when
negative (as `JSON.stringify` renders integral JS numbers). -/
def intChars (i : Int) : List Char :=
  if i < 0 then '-' :: natChars i.natAbs else natChars i.natAbs

/-- The number of factors `p` in `n` (used to find the scale of a
terminating decimal). -/
def padicCount (p n : Nat) : Nat :=
  if h : 1 < p ∧ 0 < n ∧ n % p = 0 then padicCount p (n / p) + 1 else 0
decreasing_by exact Nat.div_lt_self h.2.1 h.1

/-- Number of decimal places needed for a rational with denominator `d`:
`d` divides `10 ^ decExp d` exactly when `d` has only the prime factors
`2` and `5`. -/
def decExp (d : Nat) : Nat := max (padicCount 2 d) (padicCount 5 d)

/-- Decimal rendering of a nonnegative scaled value `m / 10 ^ e`:
integer part, and when `e > 0` a point followed by exactly `e` fraction
digits (left-padded with zeros). -/
def scaledChars (m : Nat) (e : Nat) : List Char :=
  if e = 0 then natChars m
  else
    natChars (m / 10 ^ e) ++ '.' ::
      (List.replicate (e - (natChars (m % 10 ^ e)).length) '0' ++ natChars (m % 10 ^ e))

/-- Decimal rendering of a rational whose denominator divides a power of
ten (all literals in the source are such), mirroring how
`JSON.stringify` renders these JS numbers as terminating decimals. -/
def ratChars (q : ℚ) : List Char :=
  let e := decExp q.den
  let m := q.num.natAbs * (10 ^ e / q.den)
  if q.num < 0 then '-' :: scaledChars m e else scaledChars m e

/- ### JSON string escaping -/

/-- Escape `"` and `\` in string content, as `JSON.stringify` does for
the strings this code stores (none contain control characters). -/
def escapeChars : List Char → List Char
  | [] => []
  | c :: rest =>
    if c = '"' ∨ c = '\\' then '\\' :: c :: escapeChars rest
    else c :: escapeChars rest

/-- A JSON string literal: quoted, escaped content. -/
def strLitChars (s : String) : List Char :=
  '"' :: (escapeChars s.data ++ ['"'])

/- ### JSON parsing (recursive descent over the stored fragment) -/

/-- Parse string-literal content after the opening quote, undoing the
escapes `\"` and `\\`; returns the content and the rest of the input. -/
def parseStrChars : List Char → Option (List Char × List Char)
  | [] => none
  | c :: rest =>
    if c = '"' then some ([], rest)
    else if c = '\\' then
      match rest with
      | [] => none
      | e :: rest2 =>
        if e = '"' ∨ e = '\\' then
          (parseStrChars rest2).map (fun p => (e :: p.1, p.2))
        else none
    else (parseStrChars rest).map (fun p => (c :: p.1, p.2))

/-- Longest leading run of decimal digits, and the rest of the input. -/
def takeDigits : List Char → (List Char × List Char)
  | [] => ([], [])
  | c :: rest =>
    if c.isDigit then
      let p := takeDigits rest
      (c :: p.1, p.2)
    else ([], c :: rest)

/-- Value of a list of decimal digit characters, most significant
first. -/
def digitsVal (ds : List Char) : Nat :=
  ds.foldl (fun acc c => 10 * acc + (c.toNat - 48)) 0

/-- Parse a nonnegative decimal number: an integer part and an optional
fraction part, yielding an exact rational. -/
def parseNumCore (cs : List Char) : Option (ℚ × List Char) :=
  let p := takeDigits cs
  if p.1 = [] then none
  else
    match p.2 with
    | '.' :: rest2 =>
      let f := takeDigits rest2
      if f.1 = [] then none
      else some ((digitsVal p.1 : ℚ) + (digitsVal f.1 : ℚ) / (10 ^ f.1.length : ℚ), f.2)
    | rest => some ((digitsVal p.1 : ℚ), rest)

/-- Parse a decimal number with an optional leading minus sign. -/
def parseNum : List Char → Option (ℚ × List Char)
  | [] => none
  | c :: rest =>
    if c = '-' then (parseNumCore rest).map (fun p => (-p.1, p.2))
    else parseNumCore (c :: rest)

/-- Parse a scalar JSON value: `null`, `true`, `false`, a string, or a
number. -/
def parseScalar : List Char → Option (Json × List Char)
  | [] => none
  | c :: rest =>
    if c = '"' then (parseStrChars rest).map (fun p => (Json.str ⟨p.1⟩, p.2))
    else if c = 'n' then
      match rest with
      | 'u' :: 'l' :: 'l' :: rest2 => some (Json.null, rest2)
      | _ => none
    else if c = 't' then
      match rest with
      | 'r' :: 'u' :: 'e' :: rest2 => some (Json.bool true, rest2)
      | _ => none
    else if c = 'f' then
      match rest with
      | 'a' :: 'l' :: 's' :: 'e' :: rest2 => some (Json.bool false, rest2)
      | _ => none
    else (parseNum (c :: rest)).map (fun p => (Json.num p.1, p.2))

/-- Parse the members of a flat object (scalar values only) after the
opening brace; `fuel` bounds the number of members. -/
def parseMembers (fuel : Nat) (cs : List Char) :
    Option (List (String × Json) × List Char) :=
  match fuel with
  | 0 => none
  | fuel + 1 =>
    match cs with
    | '}' :: rest => some ([], rest)
    | '"' :: cs1 =>
      match parseStrChars cs1 with
      | none => none
      | some (key, cs2) =>
        match cs2 with
        | ':' :: cs3 =>
          match parseScalar cs3 with
          | none => none
          | some (v, cs4) =>
            match cs4 with
            | ',' :: '"' :: cs5 =>
              match parseMembers fuel ('"' :: cs5) with
              | some (kvs, rest) => some ((⟨key⟩, v) :: kvs, rest)
              | none => none
            | '}' :: rest => some ([(⟨key⟩, v)], rest)
            | _ => none
        | _ => none
    | _ => none

/-- Parse a flat object (scalar member values) starting at `{`. -/
def parseObj (fuel : Nat) : List Char → Option (Json × List Char)
  | '{' :: rest => (parseMembers fuel rest).map (fun p => (Json.obj p.1, p.2))
  | _ => none

/-- Parse one array element: a flat object or a scalar. -/
def parseElem (fuel : Nat) (cs : List Char) : Option (Json × List Char) :=
  match cs with
  | [] => none
  | c :: cs2 =>
    if c = '{' then parseObj fuel (c :: cs2) else parseScalar (c :: cs2)

/-- Parse the elements of an array after the opening bracket; `fuel`
bounds the number of elements. -/
def parseElems (fuel : Nat) (cs : List Char) :
    Option (List Json × List Char) :=
  match fuel with
  | 0 => none
  | fuel + 1 =>
    match cs with
    | [] => none
    | c :: cs2 =>
      if c = ']' then some ([], cs2)
      else
        match parseElem fuel (c :: cs2) with
        | none => none
        | some (v, cs1) =>
          match cs1 with
          | ',' :: cs3 =>
            match parseElems fuel cs3 with
            | some (vs, rest) => some (v :: vs, rest)
            | none => none
          | ']' :: rest => some ([v], rest)
          | _ => none

/-- Parse a JSON value of the stored fragment: a flat object, an array
of objects or scalars, or a scalar. -/
def parseVal (fuel : Nat) (cs : List Char) : Option (Json × List Char) :=
  match cs with
  | '{' :: _ => parseObj fuel cs
  | '[' :: rest => (parseElems fuel rest).map (fun p => (Json.arr p.1, p.2))
  | _ => parseScalar cs

/-- Executable model of `JSON.parse` on the stored fragment: the whole
input must be consumed; `none` models a thrown `SyntaxError`. -/
def jsonParse (s : String) : Option Json :=
  match parseVal (s.length + 1) s.data with
  | some (j, []) => some j
  | _ => none

/- ### JSON printing (`JSON.stringify` on the stored fragment) -/

/-- Render a scalar JSON value (containers are handled by
`encodeTop`). -/
def encodeScalarChars : Json → List Char
  | Json.null => ['n', 'u', 'l', 'l']
  | Json.bool true => ['t', 'r', 'u', 'e']
  | Json.bool false => ['f', 'a', 'l', 's', 'e']
  | Json.num q => ratChars q
  | Json.str s => strLitChars s
  | Json.arr _ => []
  | Json.obj _ => []

/-- Render object members, comma-separated. -/
def encodeMembersChars : List (String × Json) → List Char
  | [] => []
  | [m] => strLitChars m.1 ++ ':' :: encodeScalarChars m.2
  | m :: ms => (strLitChars m.1 ++ ':' :: encodeScalarChars m.2) ++ ',' :: encodeMembersChars ms

/-- Render a flat object. -/
def encodeObjChars (ms : List (String × Json)) : List Char :=
  '{' :: (encodeMembersChars ms ++ ['}'])

/-- Render one array element: a flat object or a scalar. -/
def encodeElemChars : Json → List Char
  | Json.obj ms => encodeObjChars ms
  | j => encodeScalarChars j

/-- Render array elements, comma-separated. -/
def encodeElemsChars : List Json → List Char
  | [] => []
  | [e] => encodeElemChars e
  | e :: es => encodeElemChars e ++ ',' :: encodeElemsChars es

/-- Render an array. -/
def encodeArrChars (es : List Json) : List Char :=
  '[' :: (encodeElemsChars es ++ [']'])

/-- Executable model of `JSON.stringify` on the stored fragment. -/
def encodeTop : Json → List Char
  | Json.obj ms => encodeObjChars ms
  | Json.arr es => encodeArrChars es
  | j => encodeScalarChars j

/- ### The browser local storage -/

/-- Model of `localStorage`: an association list from keys to stored
strings, in insertion order. -/
abbrev Storage := List (String × String)

/-- Model of `localStorage.getItem`: the value stored under `k`, or
`none` (JS `null`) when the key is absent. -/
def Storage.getItem (s : Storage) (k : String) : Option String :=
  (List.find? (fun e => e.1 == k) s).map (fun e => e.2)

/-- Model of `localStorage.setItem`: overwrite the value under `k`, or
append a new entry when the key is absent. -/
def Storage.setItem (s : Storage) (k : String) (v : String) : Storage :=
  if List.any s (fun e => e.1 == k) then
    List.map (fun e => if e.1 == k then (e.1, v) else e) s
  else s ++ [(k, v)]

/- ### Object-based cart (`ecommerce-site/script.js`) -/

namespace Ecom

/-- One product of the static `products` list of
`ecommerce-site/script.js`. -/
structure Product where
  id : String
  name : String
  price : ℚ
  image : String
  deriving Repr, DecidableEq

/-- The static product list (`ecommerce-site/script.js`, lines 2-9). -/
def products : List Product :=
  [ { id := "p1", name := "Minimalist Backpack", price := 49.99, image := "images/product1.jpg" }
  , { id := "p2", name := "Wireless Headphones", price := 79.5, image := "images/product2.jpg" }
  , { id := "p3", name := "Ceramic Mug", price := 12.0, image := "images/product3.jpg" }
  , { id := "p4", name := "Mechanical Keyboard", price := 99.0, image := "images/product4.jpg" }
  , { id := "p5", name := "Classic T-Shirt", price := 18.75, image := "images/product5.jpg" }
  , { id := "p6", name := "Running Shoes", price := 64.25, image := "images/product6.jpg" }
  ]

/-- The cart object: a JS object mapping a product id to a quantity,
modelled as an association list in property-insertion order. -/
abbrev Cart := List (String × Int)

/-- Reading `cart[productId]`: the value of the first (for a well-formed
object, only) entry with that key. -/
def Cart.get (c : Cart) (pid : String) : Option Int :=
  (List.find? (fun e => e.1 == pid) c).map (fun e => e.2)

/-- The assignment `cart[productId] = q`: overwrite the entry when
present, append it otherwise. -/
def Cart.set (c : Cart) (pid : String) (q : Int) : Cart :=
  if List.any c (fun e => e.1 == pid) then
    List.map (fun e => if e.1 == pid then (e.1, q) else e) c
  else c ++ [(pid, q)]

/-- The statement `delete cart[productId]`. -/
def Cart.del (c : Cart) (pid : String) : Cart :=
  List.filter (fun e => !(e.1 == pid)) c

/-- Lines 48-54: `addToCart(productId, quantity)` computes
`nextQty = (cart[productId] ?? 0) + quantity`, stores it, and deletes
the entry again when the stored value is `<= 0`. -/
def addToCart (c : Cart) (productId : String) (quantity : Int) : Cart :=
  let c1 := Cart.set c productId ((Cart.get c productId).getD 0 + quantity)
  if (Cart.get c1 productId).getD 0 ≤ 0 then Cart.del c1 productId else c1

/-- Lines 56-61: `setQuantity(productId, quantity)` deletes the entry
when `quantity <= 0` and stores `quantity` otherwise. -/
def setQuantity (c : Cart) (productId : String) (quantity : Int) : Cart :=
  if quantity ≤ 0 then Cart.del c productId else Cart.set c productId quantity

/-- Lines 63-67: `removeFromCart(productId)` deletes the entry. -/
def removeFromCart (c : Cart) (productId : String) : Cart :=
  Cart.del c productId

/-- Lines 36-38: `getCartCount` sums the quantities. -/
def getCartCount (c : Cart) : Int :=
  List.foldl (fun sum qty => sum + qty) 0 (c.map (fun e => e.2))

/-- Lines 40-45: `getCartTotal` folds over the entries, adding
`price * qty` for entries whose product is in the product list and
skipping unknown ids. -/
def getCartTotal (c : Cart) : ℚ :=
  List.foldl
    (fun sum e =>
      match List.find? (fun p => p.id == e.1) products with
      | some product => sum + product.price * (e.2 : ℚ)
      | none => sum)
    0 c

/-- The price of the product with id `pid` in the product list (`0` for
an unknown id, which `getCartTotal` skips). -/
def priceOf (pid : String) : ℚ :=
  match List.find? (fun p => p.id == pid) products with
  | some product => product.price
  | none => 0

/-- The mathematical reading of the total: the sum over all cart
entries of the entry's product price times its quantity. -/
def entriesSum (c : Cart) : ℚ :=
  (c.map (fun e => priceOf e.1 * (e.2 : ℚ))).sum

/-- The storage key of the cart (`CART_KEY`, line 20). -/
def CART_KEY : String := "mini-ecommerce-cart-v1"

/-- The JSON value of a cart object. -/
def cartToJson (c : Cart) : Json :=
  Json.obj (c.map (fun e => (e.1, Json.num (e.2 : ℚ))))

/-- The JSON text `JSON.stringify(cart)` produces for the cart object:
a flat object of integer members. -/
def stringifyCart (c : Cart) : String :=
  ⟨encodeTop (cartToJson c)⟩

/-- Lines 32-34: `saveCart` stores the serialized cart under
`CART_KEY`. -/
def saveCart (s : Storage) (c : Cart) : Storage :=
  Storage.setItem s CART_KEY (stringifyCart c)

/-- Lines 23-30: `loadCart` reads the key and parses it, returning the
parsed JSON value as-is; a missing key or a parse error (the `catch`)
yields the empty object `{}`. -/
def loadCart (s : Storage) : Json :=
  match Storage.getItem s CART_KEY with
  | none => Json.obj []
  | some raw =>
    match jsonParse raw with
    | none => Json.obj []
    | some j => j

/-- Reading a JSON value back as a cart object: it must be a flat
object all of whose member values are integral numbers. -/
def jsonToCart : Json → Option Cart
  | Json.obj kvs =>
    kvs.foldr
      (fun kv acc =>
        match kv.2, acc with
        | Json.num q, some c => if q.den = 1 then some ((kv.1, q.num) :: c) else none
        | _, _ => none)
      (some [])
  | _ => none

/-- The combined state the object-cart mutations act on: the in-memory
`cart` variable and the local storage. -/
structure State where
  cart : Cart
  storage : Storage

/-- `addToCart` followed by its `saveCart()` call (the `renderCart()`
call redraws the DOM from the same state and adds nothing to it). -/
def addToCartFull (st : State) (productId : String) (quantity : Int) : State :=
  let c := addToCart st.cart productId quantity
  { cart := c, storage := saveCart st.storage c }

/-- `setQuantity` followed by its `saveCart()` call. -/
def setQuantityFull (st : State) (productId : String) (quantity : Int) : State :=
  let c := setQuantity st.cart productId quantity
  { cart := c, storage := saveCart st.storage c }

/-- `removeFromCart` followed by its `saveCart()` call. -/
def removeFromCartFull (st : State) (productId : String) : State :=
  let c := removeFromCart st.cart productId
  { cart := c, storage := saveCart st.storage c }

/-- Cart states reachable through the UI: the cart starts empty, and
every wired event handler calls `addToCart(product.id, ±1)`,
`setQuantity` or `removeFromCart` with an id from the product list
(`removeFromCart` with any id leaves the key set smaller, so it is
allowed with any id). -/
inductive Reachable : Cart → Prop where
  | empty : Reachable []
  | add {c : Cart} {pid : String} {q : Int} :
      Reachable c → pid ∈ products.map Product.id → Reachable (addToCart c pid q)
  | set {c : Cart} {pid : String} {q : Int} :
      Reachable c → pid ∈ products.map Product.id → Reachable (setQuantity c pid q)
  | remove {c : Cart} {pid : String} :
      Reachable c → Reachable (removeFromCart c pid)

/-- The cart invariant of the spec: every stored entry has quantity at
least `1`. -/
def CartInv (c : Cart) : Prop :=
  ∀ e ∈ c, 1 ≤ e.2

end Ecom

/- ### Array-based carts (both halves of `script.js`)

The two array-based implementations in `script.js` (first half, lines
239-310 and 430-439; second half, lines 881-971 in the concatenated
file) have identical cart logic and differ only in the order of the
`updateCartDisplay()` / `saveCartToStorage()` effect calls, which is
invisible in the resulting state.  Both are modelled once here,
parameterized by the product list (the first half loads
`products.json` with the `getSampleProducts` fallback, the second has
a static 12-element list). -/

namespace Shop

/-- The fields of a product that the cart logic reads (`category`,
`rating`, `image` and `description` are carried along unchanged and
only rendered, never used by cart logic). -/
structure Product where
  id : Int
  name : String
  price : ℚ
  deriving Repr, DecidableEq

/-- A cart item: `{...product, quantity}`. -/
structure Item where
  id : Int
  name : String
  price : ℚ
  quantity : Int
  deriving Repr, DecidableEq

/-- The static product list of the second half of `script.js`
(lines 526-635): ids, names and prices. -/
def products12 : List Product :=
  [ { id := 1, name := "Wireless Bluetooth Headphones", price := 89.99 }
  , { id := 2, name := "Smart Fitness Watch", price := 199.99 }
  , { id := 3, name := "Premium Cotton T-Shirt", price := 29.99 }
  , { id := 4, name := "Denim Jeans", price := 79.99 }
  , { id := 5, name := "Modern Coffee Table", price := 299.99 }
  , { id := 6, name := "Garden Plant Pots Set", price := 49.99 }
  , { id := 7, name := "Professional Basketball", price := 39.99 }
  , { id := 8, name := "Yoga Mat Premium", price := 59.99 }
  , { id := 9, name := "Laptop Stand", price := 45.99 }
  , { id := 10, name := "Wireless Mouse", price := 34.99 }
  , { id := 11, name := "Casual Blazer", price := 129.99 }
  , { id := 12, name := "Running Shoes", price := 119.99 }
  ]

/-- The `existingItem.quantity += 1` mutation: increment the quantity
of the first item `cart.find` returns. -/
def bumpFirst : List Item → Int → List Item
  | [], _ => []
  | it :: rest, pid =>
    if it.id == pid then { it with quantity := it.quantity + 1 } :: rest
    else it :: bumpFirst rest pid

/-- The `item.quantity += change` mutation of `updateQuantity`: set the
quantity of the first item `cart.find` returns. -/
def setFirstQty : List Item → Int → Int → List Item
  | [], _, _ => []
  | it :: rest, pid, q =>
    if it.id == pid then { it with quantity := q } :: rest
    else it :: setFirstQty rest pid q

/-- `addToCart(productId)`: return unchanged when the id is not in the
product list; otherwise increment the existing item's quantity or push
`{...product, quantity: 1}`. -/
def addToCart (ps : List Product) (cart : List Item) (productId : Int) : List Item :=
  match List.find? (fun p => p.id == productId) ps with
  | none => cart
  | some product =>
    if List.any cart (fun it => it.id == productId) then bumpFirst cart productId
    else cart ++ [{ id := product.id, name := product.name, price := product.price, quantity := 1 }]

/-- `removeFromCart(productId)`: filter out every item with that id. -/
def removeFromCart (cart : List Item) (productId : Int) : List Item :=
  List.filter (fun it => !(it.id == productId)) cart

/-- `updateQuantity(productId, change)`: return unchanged when no item
has that id; otherwise add `change` to the first such item's quantity
and, when the new quantity is `<= 0`, remove the item via
`removeFromCart`. -/
def updateQuantity (cart : List Item) (productId : Int) (change : Int) : List Item :=
  match List.find? (fun it => it.id == productId) cart with
  | none => cart
  | some item =>
    let c1 := setFirstQty cart productId (item.quantity + change)
    if item.quantity + change ≤ 0 then removeFromCart c1 productId else c1

/-- The item count `updateCartDisplay` writes into the cart badge. -/
def cartCount (cart : List Item) : Int :=
  List.foldl (fun sum it => sum + it.quantity) 0 cart

/-- The total `updateCartDisplay` computes from the cart items. -/
def cartTotal (cart : List Item) : ℚ :=
  List.foldl (fun sum it => sum + it.price * (it.quantity : ℚ)) 0 cart

/-- The data `updateCartDisplay` writes into the DOM: the item count,
one row of name, price and quantity per item, and the total (with the
early-return empty branch showing no rows and `$0.00`). -/
structure DisplayData where
  count : Int
  rows : List (String × ℚ × Int)
  total : ℚ
  deriving Repr, DecidableEq

/-- `updateCartDisplay` as a function from the cart to the rendered
data. -/
def updateCartDisplay (cart : List Item) : DisplayData :=
  if cart.isEmpty then
    { count := cartCount cart, rows := [], total := 0 }
  else
    { count := cartCount cart
    , rows := cart.map (fun it => (it.name, it.price, it.quantity))
    , total := cartTotal cart }

/-- The JSON value of an items array, with the modelled fields in
property-insertion order. -/
def itemsToJson (items : List Item) : Json :=
  Json.arr (items.map (fun it =>
    Json.obj
      [ ("id", Json.num (it.id : ℚ)), ("name", Json.str it.name)
      , ("price", Json.num it.price), ("quantity", Json.num (it.quantity : ℚ)) ]))

/-- The JSON text `JSON.stringify(cart)` produces for the items array:
an array of flat objects. -/
def stringifyItems (items : List Item) : String :=
  ⟨encodeTop (itemsToJson items)⟩

/-- `saveCartToStorage`: store the serialized items under the key
`cart`. -/
def saveCartToStorage (s : Storage) (items : List Item) : Storage :=
  Storage.setItem s "cart" (stringifyItems items)

/-- The outcome of `loadCartFromStorage`: the cart variable is left
alone when the key is absent; otherwise `JSON.parse` either throws
(there is no `try`/`catch` here) or replaces the cart with the parsed
value. -/
inductive LoadResult where
  | noSaved : LoadResult
  | parseError : LoadResult
  | loaded (j : Json) : LoadResult

/-- `loadCartFromStorage` as a function of the storage. -/
def loadCartFromStorage (s : Storage) : LoadResult :=
  match Storage.getItem s "cart" with
  | none => LoadResult.noSaved
  | some raw =>
    match jsonParse raw with
    | none => LoadResult.parseError
    | some j => LoadResult.loaded j

/-- Reading a JSON value back as an items array: an array of objects
of the serialized shape. -/
def jsonToItems (j : Json) : Option (List Item) :=
  match j with
  | Json.arr elems =>
    elems.foldr
      (fun e acc =>
        match e, acc with
        | Json.obj [("id", Json.num i), ("name", Json.str n),
            ("price", Json.num p), ("quantity", Json.num qn)], some its =>
          if i.den = 1 ∧ qn.den = 1 then
            some ({ id := i.num, name := n, price := p, quantity := qn.num } :: its)
          else none
        | _, _ => none)
      (some [])
  | _ => none

/-- The combined state the array-cart mutations act on: the in-memory
`cart` array, the local storage, and the rendered cart display. -/
structure State where
  cart : List Item
  storage : Storage
  display : DisplayData

/-- `addToCart` followed by its `saveCartToStorage()` and
`updateCartDisplay()` calls; an unknown product id returns before any
of them. -/
def addToCartFull (ps : List Product) (st : State) (productId : Int) : State :=
  match List.find? (fun p => p.id == productId) ps with
  | none => st
  | some _ =>
    let c := addToCart ps st.cart productId
    { cart := c
    , storage := saveCartToStorage st.storage c
    , display := updateCartDisplay c }

/-- `removeFromCart` followed by its persistence and display calls. -/
def removeFromCartFull (st : State) (productId : Int) : State :=
  let c := removeFromCart st.cart productId
  { cart := c
  , storage := saveCartToStorage st.storage c
  , display := updateCartDisplay c }

/-- `updateQuantity` followed by its persistence and display calls; an
id not in the cart returns before any of them. -/
def updateQuantityFull (st : State) (productId : Int) (change : Int) : State :=
  match List.find? (fun it => it.id == productId) st.cart with
  | none => st
  | some _ =>
    let c := updateQuantity st.cart productId change
    { cart := c
    , storage := saveCartToStorage st.storage c
    , display := updateCartDisplay c }

end Shop

/- ### The chat relay (`TourismChatbot` in the unnamed chat script) -/

namespace Chat

/-- Model of `String.prototype.trim`: drop leading and trailing
whitespace characters. -/
def jsTrim (s : String) : String :=
  ⟨((s.data.dropWhile Char.isWhitespace).reverse.dropWhile Char.isWhitespace).reverse⟩

/-- The role of a rendered chat message. -/
inductive Role where
  | user : Role
  | bot : Role
  deriving Repr, DecidableEq

/-- One rendered chat message: who sent it and its text content. -/
structure ChatMsg where
  role : Role
  text : String
  deriving Repr, DecidableEq

/-- One element of the `messages` array of a chat response; the relay
renders its `content` field. -/
structure BotFragment where
  content : String
  deriving Repr, DecidableEq

/-- The parsed body of a `/api/chat` response: a `success` flag, the
`messages` array, and an optional `error` text. -/
structure ChatResponse where
  success : Bool
  messages : List BotFragment
  error : Option String
  deriving Repr, DecidableEq

/-- The outcome of the `fetch` exchange: a parsed response body, or a
network / JSON failure (anything that makes `await` throw). -/
inductive FetchOutcome where
  | ok (data : ChatResponse) : FetchOutcome
  | fail : FetchOutcome

/-- The HTTP request `sendMessage` issues: method, URL, and the JSON
body as an ordered field list. -/
structure ChatRequest where
  method : String
  url : String
  body : List (String × String)
  deriving Repr, DecidableEq

/-- The fallback text `sendMessage` renders when the exchange fails. -/
def fallbackText : String :=
  "I'm sorry, I'm having trouble connecting right now. Please try again in a moment."

/-- The client state `sendMessage` acts on: the rendered message list,
the input field, the `isLoading` flag and the session id. -/
structure State where
  log : List ChatMsg
  inputValue : String
  isLoading : Bool
  sessionId : String
  deriving Repr, DecidableEq

/-- `sendMessage` (chat script, lines 137-184): trim the input; do
nothing when it is empty or a send is in flight; otherwise append the
user message, clear the input, issue `POST /api/chat` with body
`{message, session_id}`, and on a parsed `success` response append one
bot message per element of `messages` (its `content`), else append the
single fallback bot message.  Returns the new state and the issued
request, `none` when no request was made. -/
def sendMessage (st : State) (outcome : FetchOutcome) : State × Option ChatRequest :=
  let message := jsTrim st.inputValue
  if message = "" ∨ st.isLoading then (st, none)
  else
    let req : ChatRequest :=
      { method := "POST", url := "/api/chat"
      , body := [("message", message), ("session_id", st.sessionId)] }
    let log1 := st.log ++ [{ role := Role.user, text := message }]
    let log2 :=
      match outcome with
      | FetchOutcome.ok data =>
        if data.success then
          log1 ++ data.messages.map (fun m => { role := Role.bot, text := m.content })
        else log1 ++ [{ role := Role.bot, text := fallbackText }]
      | FetchOutcome.fail => log1 ++ [{ role := Role.bot, text := fallbackText }]
    ({ st with log := log2, inputValue := "", isLoading := false }, some req)

end Chat


/- ### Predicates for the round-trip argument -/

/-- The remaining input does not start with a decimal digit (so a
digit run ends exactly there). -/
def noDigitHead : List Char → Prop
  | [] => True
  | c :: _ => c.isDigit = false

/-- The remaining input does not continue a number: it starts with
neither a digit nor a decimal point. -/
def numStopHead : List Char → Prop
  | [] => True
  | c :: _ => c.isDigit = false ∧ c ≠ '.'

/-- A rational has a terminating decimal rendering: its denominator
divides the power of ten `decExp` finds.  All number literals of the
source (prices, quantities) satisfy this. -/
def DecimalRep (q : ℚ) : Prop := q.den ∣ 10 ^ decExp q.den

/-- Scalar values of the stored JSON fragment whose rendering the
parser inverts. -/
def ScalarOK : Json → Prop
  | Json.num q => DecimalRep q
  | Json.str _ => True
  | Json.null => True
  | Json.bool _ => True
  | Json.arr _ => False
  | Json.obj _ => False

/-- Array elements of the stored fragment: flat objects of scalars, or
scalars. -/
def ElemOK : Json → Prop
  | Json.obj ms => ∀ m ∈ ms, ScalarOK m.2
  | j => ScalarOK j

/- ### Association-list lemmas for the storage and the cart object -/

theorem find?_map_of_key {α β : Type} [BEq α] (f : α × β → α × β)
    (hf : ∀ e, (f e).1 = e.1) (k : α) (s : List (α × β)) :
    List.find? (fun e => e.1 == k) (List.map f s)
      = (List.find? (fun e => e.1 == k) s).map f := by
  induction s with
  | nil => rfl
  | cons e s ih =>
    by_cases hp : (e.1 == k) = true
    · simp [List.find?, hp, hf]
    · have hp' : (e.1 == k) = false := by simpa using hp
      simp [List.find?, hp', hf, ih]

theorem find?_key_eq_none_of_any_false {α β : Type} [BEq α]
    {k : α} {s : List (α × β)} (h : List.any s (fun e => e.1 == k) = false) :
    List.find? (fun e => e.1 == k) s = none := by
  rw [List.find?_eq_none]
  intro x hx hpx
  have hT : List.any s (fun e => e.1 == k) = true := List.any_eq_true.mpr ⟨x, hx, hpx⟩
  rw [h] at hT
  exact Bool.false_ne_true hT

theorem setlike_find?_self {α β : Type} [BEq α] [LawfulBEq α]
    (s : List (α × β)) (k : α) (v : β) :
    (List.find? (fun e => e.1 == k)
      (if List.any s (fun e => e.1 == k) then
        List.map (fun e => if e.1 == k then (e.1, v) else e) s
      else s ++ [(k, v)])).map (fun e => e.2)
      = some v := by
  by_cases hany : List.any s (fun e => e.1 == k) = true
  · rw [if_pos hany,
      find?_map_of_key _ (by intro e; by_cases h : (e.1 == k) = true <;> simp [h]) k s]
    rcases hfind : List.find? (fun e => e.1 == k) s with _ | e
    · obtain ⟨x, hx, hpx⟩ := List.any_eq_true.mp hany
      exact absurd hpx (List.find?_eq_none.mp hfind x hx)
    · obtain ⟨a, b⟩ := e
      have hk := List.find?_some hfind
      simp only [] at hk
      rw [hfind]
      simp [Option.map, hk]
  · rw [if_neg hany, List.find?_append]
    have hany' : List.any s (fun e => e.1 == k) = false := by
      cases hb : List.any s (fun e => e.1 == k) with
      | false => rfl
      | true => exact absurd hb hany
    rw [find?_key_eq_none_of_any_false hany', Option.none_or]
    simp [List.find?]

theorem setlike_find?_ne {α β : Type} [BEq α] [LawfulBEq α]
    (s : List (α × β)) (k : α) (v : β) (k' : α) (h : ¬ k' = k) :
    List.find? (fun e => e.1 == k')
      (if List.any s (fun e => e.1 == k) then
        List.map (fun e => if e.1 == k then (e.1, v) else e) s
      else s ++ [(k, v)])
      = List.find? (fun e => e.1 == k') s := by
  by_cases hany : List.any s (fun e => e.1 == k) = true
  · rw [if_pos hany,
      find?_map_of_key _ (by intro e; by_cases hk : (e.1 == k) = true <;> simp [hk]) k' s]
    rcases hfind : List.find? (fun e => e.1 == k') s with _ | e
    · rw [hfind]
      rfl
    · have hk' := List.find?_some hfind
      simp only [] at hk'
      have he1 : e.1 = k' := by simpa using hk'
      have hne : (e.1 == k) = false := by simp [he1, h]
      rw [hfind]
      simp [Option.map, hne]
  · rw [if_neg hany, List.find?_append]
    have hkk : (k == k') = false :=
      beq_eq_false_iff_ne.mpr (fun hk => h hk.symm)
    have hsingle : List.find? (fun e => e.1 == k') [(k, v)] = none := by
      simp [List.find?, hkk]
    rw [hsingle, Option.or_none]

theorem Storage.getItem_setItem_self (s : Storage) (k v : String) :
    Storage.getItem (Storage.setItem s k v) k = some v := by
  unfold Storage.getItem Storage.setItem
  exact setlike_find?_self s k v

theorem Storage.getItem_setItem_ne (s : Storage) (k v k' : String) (h : k' ≠ k) :
    Storage.getItem (Storage.setItem s k v) k' = Storage.getItem s k' := by
  unfold Storage.getItem Storage.setItem
  rw [setlike_find?_ne _ _ _ _ h]

/- ### Object-cart operation lemmas -/

namespace Ecom

theorem get_set_self (c : Cart) (pid : String) (q : Int) :
    Cart.get (Cart.set c pid q) pid = some q := by
  unfold Cart.get Cart.set
  exact setlike_find?_self c pid q

theorem get_set_ne (c : Cart) (pid : String) (q : Int) (pid' : String) (h : pid' ≠ pid) :
    Cart.get (Cart.set c pid q) pid' = Cart.get c pid' := by
  unfold Cart.get Cart.set
  rw [setlike_find?_ne _ _ _ _ h]

theorem get_del_self (c : Cart) (pid : String) :
    Cart.get (Cart.del c pid) pid = none := by
  unfold Cart.get Cart.del
  rw [List.find?_eq_none.mpr]
  · rfl
  · intro e he hpe
    have := (List.mem_filter.mp he).2
    simp only [Bool.not_eq_true'] at this
    rw [this] at hpe
    exact Bool.false_ne_true hpe

theorem mem_del {c : Cart} {pid : String} {e : String × Int}
    (h : e ∈ Cart.del c pid) : e ∈ c :=
  (List.mem_filter.mp h).1

theorem mem_set {c : Cart} {pid : String} {q : Int} {e : String × Int}
    (h : e ∈ Cart.set c pid q) : e ∈ c ∨ (e.1 = pid ∧ e.2 = q) := by
  unfold Cart.set at h
  by_cases hany : List.any c (fun x => x.1 == pid) = true
  · rw [if_pos hany] at h
    obtain ⟨x, hx, hfx⟩ := List.mem_map.mp h
    by_cases hxk : (x.1 == pid) = true
    · right
      rw [if_pos hxk] at hfx
      have : x.1 = pid := by simpa using hxk
      rw [← hfx]
      exact ⟨this, rfl⟩
    · left
      rw [if_neg hxk] at hfx
      rwa [← hfx]
  · rw [if_neg hany] at h
    rcases List.mem_append.mp h with hc | hs
    · exact Or.inl hc
    · right
      have : e = (pid, q) := by simpa using hs
      rw [this]
      exact ⟨rfl, rfl⟩

theorem addToCart_def (c : Cart) (pid : String) (q : Int) :
    addToCart c pid q =
      if (Cart.get c pid).getD 0 + q ≤ 0 then
        Cart.del (Cart.set c pid ((Cart.get c pid).getD 0 + q)) pid
      else Cart.set c pid ((Cart.get c pid).getD 0 + q) := by
  simp only [addToCart, get_set_self, Option.getD_some]

theorem addToCart_get (c : Cart) (pid : String) (q : Int) :
    Cart.get (addToCart c pid q) pid =
      if (Cart.get c pid).getD 0 + q ≤ 0 then none
      else some ((Cart.get c pid).getD 0 + q) := by
  rw [addToCart_def]
  by_cases h : (Cart.get c pid).getD 0 + q ≤ 0
  · rw [if_pos h, if_pos h, get_del_self]
  · rw [if_neg h, if_neg h, get_set_self]

theorem mem_addToCart {c : Cart} {pid : String} {q : Int} {e : String × Int}
    (h : e ∈ addToCart c pid q) : e ∈ c ∨ e.1 = pid := by
  rw [addToCart_def] at h
  by_cases hle : (Cart.get c pid).getD 0 + q ≤ 0
  · rw [if_pos hle] at h
    rcases mem_set (mem_del h) with hc | ⟨hk, _⟩
    · exact Or.inl hc
    · exact Or.inr hk
  · rw [if_neg hle] at h
    rcases mem_set h with hc | ⟨hk, _⟩
    · exact Or.inl hc
    · exact Or.inr hk

theorem mem_setQuantity {c : Cart} {pid : String} {q : Int} {e : String × Int}
    (h : e ∈ setQuantity c pid q) : e ∈ c ∨ e.1 = pid := by
  unfold setQuantity at h
  by_cases hle : q ≤ 0
  · rw [if_pos hle] at h
    exact Or.inl (mem_del h)
  · rw [if_neg hle] at h
    rcases mem_set h with hc | ⟨hk, _⟩
    · exact Or.inl hc
    · exact Or.inr hk

theorem cartInv_addToCart {c : Cart} (hc : CartInv c) (pid : String) (q : Int) :
    CartInv (addToCart c pid q) := by
  rw [addToCart_def]
  by_cases hle : (Cart.get c pid).getD 0 + q ≤ 0
  · rw [if_pos hle]
    intro e he
    have hmem := mem_del he
    have hkey : ¬ (e.1 == pid) = true := by
      have := (List.mem_filter.mp he).2
      simp only [Bool.not_eq_true'] at this
      simp [this]
    rcases mem_set hmem with hin | ⟨hk, _⟩
    · exact hc e hin
    · exact absurd (by simp [hk]) hkey
  · rw [if_neg hle]
    intro e he
    rcases mem_set he with hin | ⟨_, hv⟩
    · exact hc e hin
    · rw [hv]
      omega

theorem cartInv_setQuantity {c : Cart} (hc : CartInv c) (pid : String) (q : Int) :
    CartInv (setQuantity c pid q) := by
  unfold setQuantity
  by_cases hle : q ≤ 0
  · rw [if_pos hle]
    intro e he
    exact hc e (mem_del he)
  · rw [if_neg hle]
    intro e he
    rcases mem_set he with hin | ⟨_, hv⟩
    · exact hc e hin
    · rw [hv]
      omega

theorem cartInv_removeFromCart {c : Cart} (hc : CartInv c) (pid : String) :
    CartInv (removeFromCart c pid) := by
  intro e he
  exact hc e (mem_del he)

theorem foldl_add_sum {α : Type} (f : α → ℚ) (l : List α) (a : ℚ) :
    List.foldl (fun s x => s + f x) a l = a + (l.map f).sum := by
  induction l generalizing a with
  | nil => simp
  | cons x l ih => simp [ih, add_assoc]

theorem getCartTotal_eq_entriesSum (c : Cart) : getCartTotal c = entriesSum c := by
  unfold getCartTotal entriesSum
  have hfun : (fun (sum : ℚ) (e : String × Int) =>
      match List.find? (fun p => p.id == e.1) products with
      | some product => sum + product.price * (e.2 : ℚ)
      | none => sum)
      = fun (sum : ℚ) (e : String × Int) => sum + priceOf e.1 * (e.2 : ℚ) := by
    funext sum e
    unfold priceOf
    rcases hf : List.find? (fun p => p.id == e.1) products with _ | p
    · simp [hf]
    · simp [hf]
  rw [hfun, foldl_add_sum, zero_add]

theorem reachable_keys {c : Cart} (h : Reachable c) :
    ∀ e ∈ c, e.1 ∈ products.map Product.id := by
  induction h with
  | empty => intro e he; simp at he
  | add hr hpid ih =>
    intro e he
    rcases mem_addToCart he with hin | hk
    · exact ih e hin
    · rw [hk]; exact hpid
  | set hr hpid ih =>
    intro e he
    rcases mem_setQuantity he with hin | hk
    · exact ih e hin
    · rw [hk]; exact hpid
  | remove hr ih =>
    intro e he
    exact ih e (mem_del he)

theorem product_of_key {pid : String} (h : pid ∈ products.map Product.id) :
    ∃ p ∈ products, p.id = pid ∧ priceOf pid = p.price := by
  obtain ⟨p0, hp0, hid0⟩ := List.mem_map.mp h
  have hsome : (List.find? (fun p => p.id == pid) products).isSome := by
    rw [List.find?_isSome]
    exact ⟨p0, hp0, by simp [hid0]⟩
  obtain ⟨p, hp⟩ := Option.isSome_iff_exists.mp hsome
  refine ⟨p, List.mem_of_find?_eq_some hp, ?_, ?_⟩
  · have := List.find?_some hp
    simpa using this
  · unfold priceOf
    rw [hp]

end Ecom

/- ### Array-cart operation lemmas -/

theorem find?_filter_out {α : Type} (p : α → Bool) (l : List α) :
    List.find? p (List.filter (fun x => !(p x)) l) = none := by
  rw [List.find?_eq_none]
  intro x hx hpx
  have := (List.mem_filter.mp hx).2
  rw [hpx] at this
  exact Bool.false_ne_true (by simpa using this)

namespace Shop

theorem bumpFirst_append {c l : List Item} {pid : Int}
    (habs : ∀ it ∈ c, (it.id == pid) = false) :
    bumpFirst (c ++ l) pid = c ++ bumpFirst l pid := by
  induction c with
  | nil => simp
  | cons it c ih =>
    have hit := habs it (by simp)
    simp only [List.cons_append, bumpFirst, hit, Bool.false_eq_true, if_false, List.append_eq]
    rw [ih (fun x hx => habs x (by simp [hx]))]

theorem addToCart_absent {ps : List Product} {cart : List Item} {pid : Int} {p : Product}
    (hp : List.find? (fun x => x.id == pid) ps = some p)
    (habs : ∀ it ∈ cart, (it.id == pid) = false) :
    addToCart ps cart pid
      = cart ++ [{ id := p.id, name := p.name, price := p.price, quantity := 1 }] := by
  have hany : List.any cart (fun it => it.id == pid) = false := by
    rw [List.any_eq_false]
    intro x hx
    simp [habs x hx]
  unfold addToCart
  simp [hp, hany]

theorem addToCart_twice_absent {ps : List Product} {cart : List Item} {pid : Int} {p : Product}
    (hp : List.find? (fun x => x.id == pid) ps = some p)
    (habs : ∀ it ∈ cart, (it.id == pid) = false) :
    addToCart ps (addToCart ps cart pid) pid
      = cart ++ [{ id := p.id, name := p.name, price := p.price, quantity := 2 }] := by
  rw [addToCart_absent hp habs]
  have hpid : (p.id == pid) = true := by simpa using List.find?_some hp
  have hmem : ({ id := p.id, name := p.name, price := p.price, quantity := 1 } : Item)
      ∈ cart ++ [{ id := p.id, name := p.name, price := p.price, quantity := 1 }] := by
    simp
  have hany : List.any
      (cart ++ [{ id := p.id, name := p.name, price := p.price, quantity := 1 }])
      (fun it => it.id == pid) = true :=
    List.any_eq_true.mpr ⟨_, hmem, hpid⟩
  unfold addToCart
  simp only [hp, hany, if_true]
  rw [bumpFirst_append habs]
  simp [bumpFirst, hpid]

theorem find?_addToCart_twice_absent {ps : List Product} {cart : List Item} {pid : Int}
    {p : Product}
    (hp : List.find? (fun x => x.id == pid) ps = some p)
    (habs : ∀ it ∈ cart, (it.id == pid) = false) :
    (List.find? (fun it => it.id == pid)
        (addToCart ps (addToCart ps cart pid) pid)).map Item.quantity
      = some 2 := by
  rw [addToCart_twice_absent hp habs, List.find?_append,
    List.find?_eq_none.mpr (fun x hx => by simp [habs x hx]), Option.none_or]
  have hpid : (p.id == pid) = true := by simpa using List.find?_some hp
  simp [List.find?, hpid]

theorem updateQuantity_removes {cart : List Item} {pid : Int} {item : Item} {change : Int}
    (h : List.find? (fun it => it.id == pid) cart = some item)
    (hq : item.quantity + change ≤ 0) :
    List.find? (fun it => it.id == pid) (updateQuantity cart pid change) = none := by
  unfold updateQuantity
  rw [h]
  simp only [if_pos hq]
  unfold removeFromCart
  exact find?_filter_out _ _

theorem cartTotal_eq_sum (cart : List Item) :
    cartTotal cart = (cart.map (fun it => it.price * (it.quantity : ℚ))).sum := by
  unfold cartTotal
  rw [Ecom.foldl_add_sum (fun it => it.price * (it.quantity : ℚ)) cart 0, zero_add]

theorem updateCartDisplay_total (cart : List Item) :
    (updateCartDisplay cart).total
      = (cart.map (fun it => it.price * (it.quantity : ℚ))).sum := by
  unfold updateCartDisplay
  by_cases he : cart.isEmpty
  · rw [if_pos he]
    have : cart = [] := List.isEmpty_iff.mp he
    simp [this]
  · rw [if_neg he]
    exact cartTotal_eq_sum cart

end Shop

/- ### Claim theorems (cart operations, chat relay, frame conditions) -/

/-- Claim C1: for every cart state and product in the product list,
adding the product twice starting from a cart that does not contain it
yields an entry with quantity 2, and decrementing an entry with
quantity 1 (delta `-1`, or `updateQuantity` reaching 0) removes the
entry entirely — in the object-based and in the array-based carts. -/
theorem claim_C1_add_twice_and_decrement_removes
    (c : Ecom.Cart) (pid : String)
    (hpid : pid ∈ Ecom.products.map Ecom.Product.id)
    (habs : Ecom.Cart.get c pid = none)
    (c' : Ecom.Cart) (pid' : String)
    (hone : Ecom.Cart.get c' pid' = some 1)
    (ps : List Shop.Product) (cart : List Shop.Item) (aid : Int) (p : Shop.Product)
    (hp : List.find? (fun x => x.id == aid) ps = some p)
    (habs2 : ∀ it ∈ cart, (it.id == aid) = false)
    (cart2 : List Shop.Item) (aid2 : Int) (item : Shop.Item)
    (hfind : List.find? (fun it => it.id == aid2) cart2 = some item)
    (hq1 : item.quantity = 1) :
    Ecom.Cart.get (Ecom.addToCart (Ecom.addToCart c pid 1) pid 1) pid = some 2
    ∧ Ecom.Cart.get (Ecom.addToCart c' pid' (-1)) pid' = none
    ∧ (List.find? (fun it => it.id == aid)
        (Shop.addToCart ps (Shop.addToCart ps cart aid) aid)).map Shop.Item.quantity
        = some 2
    ∧ List.find? (fun it => it.id == aid2) (Shop.updateQuantity cart2 aid2 (-1)) = none := by
  refine ⟨?_, ?_, ?_, ?_⟩
  · rw [Ecom.addToCart_get, Ecom.addToCart_get, habs]
    norm_num
  · rw [Ecom.addToCart_get, hone]
    norm_num
  · exact Shop.find?_addToCart_twice_absent hp habs2
  · exact Shop.updateQuantity_removes hfind (by omega)

/-- Witness for C1 at concrete carts and products. -/
theorem claim_C1_witness :
    Ecom.Cart.get (Ecom.addToCart (Ecom.addToCart [] "p1" 1) "p1" 1) "p1" = some 2
    ∧ Ecom.Cart.get (Ecom.addToCart [("p2", 1)] "p2" (-1)) "p2" = none
    ∧ (List.find? (fun it => it.id == (1 : Int))
        (Shop.addToCart Shop.products12 (Shop.addToCart Shop.products12 [] 1) 1)).map
        Shop.Item.quantity = some 2
    ∧ List.find? (fun it => it.id == (2 : Int))
        (Shop.updateQuantity [{ id := 2, name := "B", price := 5, quantity := 1 }] 2 (-1))
        = none :=
  claim_C1_add_twice_and_decrement_removes
    [] "p1" (by decide) (by decide)
    [("p2", 1)] "p2" (by decide)
    Shop.products12 [] 1
    { id := 1, name := "Wireless Bluetooth Headphones", price := 89.99 }
    rfl (by intro it h; simp at h)
    [{ id := 2, name := "B", price := 5, quantity := 1 }] 2
    { id := 2, name := "B", price := 5, quantity := 1 }
    rfl rfl

/-- Claim C2: for every reachable object-cart state the value of
`getCartTotal` is the sum over all entries of the entry's product price
times its quantity (and every entry of a reachable cart has a product
in the product list); the total `updateCartDisplay` shows equals the
same sum for every array cart. -/
theorem claim_C2_total_is_sum :
    (∀ c : Ecom.Cart, Ecom.Reachable c →
      Ecom.getCartTotal c = Ecom.entriesSum c
      ∧ ∀ e ∈ c, ∃ p ∈ Ecom.products, p.id = e.1 ∧ Ecom.priceOf e.1 = p.price)
    ∧ ∀ cart : List Shop.Item,
        (Shop.updateCartDisplay cart).total
          = (cart.map (fun it => it.price * (it.quantity : ℚ))).sum := by
  constructor
  · intro c hc
    refine ⟨Ecom.getCartTotal_eq_entriesSum c, ?_⟩
    intro e he
    exact Ecom.product_of_key (Ecom.reachable_keys hc e he)
  · exact Shop.updateCartDisplay_total

/-- Witness for C2 at a concrete reachable cart and a concrete items
array. -/
theorem claim_C2_witness :
    Ecom.getCartTotal (Ecom.addToCart [] "p1" 1)
      = Ecom.entriesSum (Ecom.addToCart [] "p1" 1)
    ∧ (Shop.updateCartDisplay [{ id := 2, name := "B", price := 5, quantity := 3 }]).total
      = (List.map (fun it => it.price * (it.quantity : ℚ))
          [({ id := 2, name := "B", price := 5, quantity := 3 } : Shop.Item)]).sum :=
  ⟨(claim_C2_total_is_sum.1 (Ecom.addToCart [] "p1" 1)
      (Ecom.Reachable.add Ecom.Reachable.empty (by decide))).1,
    claim_C2_total_is_sum.2 [{ id := 2, name := "B", price := 5, quantity := 3 }]⟩

/-- Claim C3: the cart invariant — every stored entry has quantity at
least 1 — is preserved by `addToCart`, `setQuantity` and
`removeFromCart` for all argument values, and an entry whose quantity
would reach 0 or below is removed rather than stored. -/
theorem claim_C3_invariant_preserved
    (c : Ecom.Cart) (hc : Ecom.CartInv c) (pid : String) (q : Int) :
    Ecom.CartInv (Ecom.addToCart c pid q)
    ∧ Ecom.CartInv (Ecom.setQuantity c pid q)
    ∧ Ecom.CartInv (Ecom.removeFromCart c pid)
    ∧ ((Ecom.Cart.get c pid).getD 0 + q ≤ 0 →
        Ecom.Cart.get (Ecom.addToCart c pid q) pid = none)
    ∧ (q ≤ 0 → Ecom.Cart.get (Ecom.setQuantity c pid q) pid = none) := by
  refine ⟨Ecom.cartInv_addToCart hc pid q, Ecom.cartInv_setQuantity hc pid q,
    Ecom.cartInv_removeFromCart hc pid, ?_, ?_⟩
  · intro hle
    rw [Ecom.addToCart_get, if_pos hle]
  · intro hle
    unfold Ecom.setQuantity
    rw [if_pos hle]
    exact Ecom.get_del_self c pid

/-- Witness for C3 at a concrete cart. -/
theorem claim_C3_witness :
    Ecom.CartInv (Ecom.addToCart [("p1", 2)] "p1" (-5))
    ∧ Ecom.CartInv (Ecom.setQuantity [("p1", 2)] "p1" (-5))
    ∧ Ecom.CartInv (Ecom.removeFromCart [("p1", 2)] "p1")
    ∧ ((Ecom.Cart.get [("p1", 2)] "p1").getD 0 + (-5) ≤ 0 →
        Ecom.Cart.get (Ecom.addToCart [("p1", 2)] "p1" (-5)) "p1" = none)
    ∧ ((-5 : Int) ≤ 0 → Ecom.Cart.get (Ecom.setQuantity [("p1", 2)] "p1" (-5)) "p1" = none) :=
  claim_C3_invariant_preserved [("p1", 2)] (by intro e he; simp at he; simp [he]) "p1" (-5)

/-- Claim C5: after each of `addToCart`, `setQuantity` and
`removeFromCart` returns, the blob stored under the cart key equals the
serialization of the current in-memory cart state. -/
theorem claim_C5_mutations_persist (st : Ecom.State) (pid : String) (q : Int) :
    Storage.getItem (Ecom.addToCartFull st pid q).storage Ecom.CART_KEY
      = some (Ecom.stringifyCart (Ecom.addToCartFull st pid q).cart)
    ∧ Storage.getItem (Ecom.setQuantityFull st pid q).storage Ecom.CART_KEY
      = some (Ecom.stringifyCart (Ecom.setQuantityFull st pid q).cart)
    ∧ Storage.getItem (Ecom.removeFromCartFull st pid).storage Ecom.CART_KEY
      = some (Ecom.stringifyCart (Ecom.removeFromCartFull st pid).cart) := by
  refine ⟨?_, ?_, ?_⟩
  · unfold Ecom.addToCartFull Ecom.saveCart
    exact Storage.getItem_setItem_self _ _ _
  · unfold Ecom.setQuantityFull Ecom.saveCart
    exact Storage.getItem_setItem_self _ _ _
  · unfold Ecom.removeFromCartFull Ecom.saveCart
    exact Storage.getItem_setItem_self _ _ _

/-- Claim C8: every cart operation's effect on local storage is
confined to the single cart key of its implementation; no other key is
written. -/
theorem claim_C8_storage_frame (k : String)
    (hk1 : k ≠ Ecom.CART_KEY) (hk2 : k ≠ "cart") :
    (∀ (st : Ecom.State) (pid : String) (q : Int),
      Storage.getItem (Ecom.addToCartFull st pid q).storage k = Storage.getItem st.storage k)
    ∧ (∀ (st : Ecom.State) (pid : String) (q : Int),
      Storage.getItem (Ecom.setQuantityFull st pid q).storage k = Storage.getItem st.storage k)
    ∧ (∀ (st : Ecom.State) (pid : String),
      Storage.getItem (Ecom.removeFromCartFull st pid).storage k = Storage.getItem st.storage k)
    ∧ (∀ (s : Storage) (items : List Shop.Item),
      Storage.getItem (Shop.saveCartToStorage s items) k = Storage.getItem s k)
    ∧ (∀ (ps : List Shop.Product) (st : Shop.State) (pid : Int),
      Storage.getItem (Shop.addToCartFull ps st pid).storage k = Storage.getItem st.storage k)
    ∧ (∀ (st : Shop.State) (pid : Int),
      Storage.getItem (Shop.removeFromCartFull st pid).storage k = Storage.getItem st.storage k)
    ∧ (∀ (st : Shop.State) (pid change : Int),
      Storage.getItem (Shop.updateQuantityFull st pid change).storage k
        = Storage.getItem st.storage k) := by
  refine ⟨?_, ?_, ?_, ?_, ?_, ?_, ?_⟩
  · intro st pid q
    unfold Ecom.addToCartFull Ecom.saveCart
    exact Storage.getItem_setItem_ne _ _ _ _ hk1
  · intro st pid q
    unfold Ecom.setQuantityFull Ecom.saveCart
    exact Storage.getItem_setItem_ne _ _ _ _ hk1
  · intro st pid
    unfold Ecom.removeFromCartFull Ecom.saveCart
    exact Storage.getItem_setItem_ne _ _ _ _ hk1
  · intro s items
    unfold Shop.saveCartToStorage
    exact Storage.getItem_setItem_ne _ _ _ _ hk2
  · intro ps st pid
    unfold Shop.addToCartFull
    rcases h : List.find? (fun p => p.id == pid) ps with _ | p
    · simp only [h]
    · simp only [h]
      unfold Shop.saveCartToStorage
      exact Storage.getItem_setItem_ne _ _ _ _ hk2
  · intro st pid
    unfold Shop.removeFromCartFull Shop.saveCartToStorage
    exact Storage.getItem_setItem_ne _ _ _ _ hk2
  · intro st pid change
    unfold Shop.updateQuantityFull
    rcases h : List.find? (fun it => it.id == pid) st.cart with _ | it
    · simp only [h]
    · simp only [h]
      unfold Shop.saveCartToStorage
      exact Storage.getItem_setItem_ne _ _ _ _ hk2

/-- Witness for C8 at the key `"user"` and concrete states. -/
theorem claim_C8_witness :
    Storage.getItem (Ecom.addToCartFull { cart := [], storage := [] } "p1" 1).storage "user"
      = Storage.getItem ([] : Storage) "user" :=
  (claim_C8_storage_frame "user" (by decide) (by decide)).1
    { cart := [], storage := [] } "p1" 1

/-- Claim C10: in both array-based cart implementations, `addToCart`
with a product id that is not in the product list is a no-op: the cart,
the persisted blob and the rendered display are all left unchanged. -/
theorem claim_C10_unknown_product_noop
    (ps : List Shop.Product) (st : Shop.State) (pid : Int)
    (h : List.find? (fun p => p.id == pid) ps = none) :
    Shop.addToCartFull ps st pid = st
    ∧ Shop.addToCart ps st.cart pid = st.cart := by
  constructor
  · unfold Shop.addToCartFull
    rw [h]
  · unfold Shop.addToCart
    rw [h]

/-- Witness for C10 at product id 999, absent from the static list. -/
theorem claim_C10_witness :
    Shop.addToCartFull Shop.products12
        { cart := [], storage := [], display := { count := 0, rows := [], total := 0 } } 999
      = { cart := [], storage := [], display := { count := 0, rows := [], total := 0 } }
    ∧ Shop.addToCart Shop.products12
        ({ cart := [], storage := [], display := { count := 0, rows := [], total := 0 }
          } : Shop.State).cart 999
      = ({ cart := [], storage := [], display := { count := 0, rows := [], total := 0 }
          } : Shop.State).cart :=
  claim_C10_unknown_product_noop Shop.products12
    { cart := [], storage := [], display := { count := 0, rows := [], total := 0 } } 999
    (by decide)

/-- Claim C6: on a response that parses with `success` true the relay
appends one bot message per element of the `messages` array, rendering
each fragment's content in order; on a failed request or `success`
false it appends exactly one generic fallback bot message. -/
theorem claim_C6_bot_messages (st : Chat.State)
    (h1 : Chat.jsTrim st.inputValue ≠ "") (h2 : st.isLoading = false) :
    (∀ data : Chat.ChatResponse, data.success = true →
      (Chat.sendMessage st (Chat.FetchOutcome.ok data)).1.log
        = st.log ++ [{ role := Chat.Role.user, text := Chat.jsTrim st.inputValue }]
            ++ data.messages.map (fun m => { role := Chat.Role.bot, text := m.content }))
    ∧ (∀ data : Chat.ChatResponse, data.success = false →
      (Chat.sendMessage st (Chat.FetchOutcome.ok data)).1.log
        = st.log ++ [{ role := Chat.Role.user, text := Chat.jsTrim st.inputValue }]
            ++ [{ role := Chat.Role.bot, text := Chat.fallbackText }])
    ∧ (Chat.sendMessage st Chat.FetchOutcome.fail).1.log
        = st.log ++ [{ role := Chat.Role.user, text := Chat.jsTrim st.inputValue }]
            ++ [{ role := Chat.Role.bot, text := Chat.fallbackText }] := by
  refine ⟨?_, ?_, ?_⟩
  · intro data hs
    simp [Chat.sendMessage, h1, h2, hs]
  · intro data hs
    simp [Chat.sendMessage, h1, h2, hs]
  · simp [Chat.sendMessage, h1, h2]

/-- Witness for C6 at a concrete state and concrete responses. -/
theorem claim_C6_witness :
    (Chat.sendMessage { log := [], inputValue := " hi ", isLoading := false, sessionId := "s1" }
        (Chat.FetchOutcome.ok { success := true, messages := [{ content := "a" }, { content := "b" }], error := none })).1.log
      = [] ++ [{ role := Chat.Role.user, text := Chat.jsTrim " hi " }]
          ++ List.map (fun m => { role := Chat.Role.bot, text := m.content })
              [({ content := "a" } : Chat.BotFragment), { content := "b" }] :=
  (claim_C6_bot_messages
    { log := [], inputValue := " hi ", isLoading := false, sessionId := "s1" }
    (by decide) rfl).1
    { success := true, messages := [{ content := "a" }, { content := "b" }], error := none } rfl

/-- Claim C7: the issued request is a `POST` to `/api/chat` whose JSON
body has exactly the fields `message` (the trimmed input) and
`session_id`; the response is consumed only through its `success` flag
and `messages` array. -/
theorem claim_C7_request_shape (st : Chat.State)
    (h1 : Chat.jsTrim st.inputValue ≠ "") (h2 : st.isLoading = false) :
    (∀ o : Chat.FetchOutcome,
      (Chat.sendMessage st o).2
        = some { method := "POST", url := "/api/chat"
               , body := [("message", Chat.jsTrim st.inputValue)
                         , ("session_id", st.sessionId)] })
    ∧ ∀ d1 d2 : Chat.ChatResponse, d1.success = d2.success → d1.messages = d2.messages →
        Chat.sendMessage st (Chat.FetchOutcome.ok d1)
          = Chat.sendMessage st (Chat.FetchOutcome.ok d2) := by
  constructor
  · intro o
    simp [Chat.sendMessage, h1, h2]
  · intro d1 d2 hs hm
    simp [Chat.sendMessage, h1, h2, hs, hm]

/-- Witness for C7 at a concrete state. -/
theorem claim_C7_witness :
    (Chat.sendMessage { log := [], inputValue := " hi ", isLoading := false, sessionId := "s1" }
        Chat.FetchOutcome.fail).2
      = some { method := "POST", url := "/api/chat"
             , body := [("message", Chat.jsTrim " hi "), ("session_id", "s1")] } :=
  (claim_C7_request_shape
    { log := [], inputValue := " hi ", isLoading := false, sessionId := "s1" }
    (by decide) rfl).1 Chat.FetchOutcome.fail

/- ### Digit rendering and parsing lemmas -/

theorem digitCh_toNat {d : Nat} (h : d < 10) : (digitCh d).toNat = 48 + d := by
  interval_cases d <;> decide

theorem digitCh_isDigit {d : Nat} (h : d < 10) : (digitCh d).isDigit = true := by
  interval_cases d <;> decide

theorem isDigit_range {c : Char} (h : c.isDigit = true) :
    48 ≤ c.toNat ∧ c.toNat ≤ 57 := by
  simp only [Char.isDigit, Bool.and_eq_true, decide_eq_true_eq, ge_iff_le] at h
  obtain ⟨h1, h2⟩ := h
  constructor
  · exact UInt32.le_toNat_of_le (by decide) h1
  · exact UInt32.toNat_le_of_le (by decide) h2

theorem ne_of_isDigit {c c' : Char} (h : c.isDigit = true)
    (h' : c'.toNat < 48 ∨ 57 < c'.toNat) : c ≠ c' := by
  intro he
  obtain ⟨h1, h2⟩ := isDigit_range h
  rw [he] at h1 h2
  omega

theorem natChars_ne_nil (n : Nat) : natChars n ≠ [] := by
  rw [natChars]
  split
  · simp
  · simp

theorem natChars_digits (n : Nat) : ∀ c ∈ natChars n, c.isDigit = true := by
  induction n using Nat.strong_induction_on with
  | _ n ih =>
    rw [natChars]
    split
    · intro c hc
      rw [List.mem_singleton.mp hc]
      exact digitCh_isDigit (by omega)
    · intro c hc
      rcases List.mem_append.mp hc with hL | hR
      · exact ih (n / 10) (Nat.div_lt_self (by omega) (by omega)) c hL
      · rw [List.mem_singleton.mp hR]
        exact digitCh_isDigit (Nat.mod_lt n (by omega))

theorem digitsVal_append_one (ds : List Char) (c : Char) :
    digitsVal (ds ++ [c]) = 10 * digitsVal ds + (c.toNat - 48) := by
  unfold digitsVal
  rw [List.foldl_append]
  rfl

theorem digitsVal_natChars (n : Nat) : digitsVal (natChars n) = n := by
  induction n using Nat.strong_induction_on with
  | _ n ih =>
    rw [natChars]
    split
    · rename_i h
      show digitsVal [digitCh n] = n
      unfold digitsVal
      simp [digitCh_toNat h]
    · rename_i h
      rw [digitsVal_append_one, ih (n / 10) (Nat.div_lt_self (by omega) (by omega)),
        digitCh_toNat (Nat.mod_lt n (by omega))]
      omega

theorem natChars_length_le {n k : Nat} (hn : n < 10 ^ k) (hk : 1 ≤ k) :
    (natChars n).length ≤ k := by
  induction n using Nat.strong_induction_on generalizing k with
  | _ n ih =>
    rw [natChars]
    split
    · simpa using hk
    · rename_i h
      have hk2 : 2 ≤ k := by
        by_contra hcon
        have : k = 1 := by omega
        rw [this] at hn
        simp at hn
        omega
      have hdiv : n / 10 < 10 ^ (k - 1) := by
        rw [Nat.div_lt_iff_lt_mul (by omega)]
        calc n < 10 ^ k := hn
          _ = 10 ^ (k - 1) * 10 := by
            rw [← Nat.pow_succ]
            congr 1
            omega
      have := ih (n / 10) (Nat.div_lt_self (by omega) (by omega)) hdiv (by omega)
      simp only [List.length_append, List.length_singleton]
      omega

theorem takeDigits_append {ds rest : List Char}
    (hds : ∀ c ∈ ds, c.isDigit = true) (hrest : noDigitHead rest) :
    takeDigits (ds ++ rest) = (ds, rest) := by
  induction ds with
  | nil =>
    simp only [List.nil_append]
    cases rest with
    | nil => rfl
    | cons c cs =>
      unfold takeDigits
      unfold noDigitHead at hrest
      rw [hrest]
      simp
  | cons c ds ih =>
    have hc := hds c (by simp)
    simp only [List.cons_append, takeDigits, hc, if_true, List.append_eq]
    rw [ih (fun x hx => hds x (by simp [hx]))]

theorem digitsVal_replicate_zero (m : Nat) (ds : List Char) :
    digitsVal (List.replicate m '0' ++ ds) = digitsVal ds := by
  induction m with
  | zero => simp
  | succ m ih =>
    rw [List.replicate_succ]
    unfold digitsVal at ih ⊢
    simpa using ih

/- ### Number parsing round trip -/

theorem numStop_noDigit {rest : List Char} (h : numStopHead rest) : noDigitHead rest := by
  cases rest with
  | nil => trivial
  | cons c cs => exact h.1

theorem natChars_cons (n : Nat) :
    ∃ c cs, natChars n = c :: cs ∧ c.isDigit = true := by
  rcases hn : natChars n with _ | ⟨c, cs⟩
  · exact absurd hn (natChars_ne_nil n)
  · exact ⟨c, cs, rfl, natChars_digits n c (by rw [hn]; simp)⟩

theorem parseNumCore_natChars (n : Nat) {rest : List Char} (hrest : numStopHead rest) :
    parseNumCore (natChars n ++ rest) = some ((n : ℚ), rest) := by
  have hnd : noDigitHead rest := numStop_noDigit hrest
  simp only [parseNumCore, takeDigits_append (natChars_digits n) hnd]
  rw [if_neg (natChars_ne_nil n)]
  cases rest with
  | nil => simp [digitsVal_natChars]
  | cons c cs =>
    obtain ⟨hcd, hcp⟩ := hrest
    simp [hcp, digitsVal_natChars]

theorem parseNumCore_scaledChars (m e : Nat) {rest : List Char} (hrest : numStopHead rest) :
    parseNumCore (scaledChars m e ++ rest) = some ((m : ℚ) / (10:ℚ) ^ e, rest) := by
  unfold scaledChars
  by_cases he : e = 0
  · rw [if_pos he, parseNumCore_natChars m hrest, he]
    norm_num
  · rw [if_neg he]
    have hnd : noDigitHead rest := numStop_noDigit hrest
    have hfracds : ∀ c ∈ List.replicate (e - (natChars (m % 10 ^ e)).length) '0'
        ++ natChars (m % 10 ^ e), c.isDigit = true := by
      intro c hc
      rcases List.mem_append.mp hc with hL | hR
      · rw [List.eq_of_mem_replicate hL]
        decide
      · exact natChars_digits _ c hR
    have hlen : (natChars (m % 10 ^ e)).length ≤ e :=
      natChars_length_le (Nat.mod_lt m (by positivity)) (by omega)
    have hfraclen : (List.replicate (e - (natChars (m % 10 ^ e)).length) '0'
        ++ natChars (m % 10 ^ e)).length = e := by
      simp only [List.length_append, List.length_replicate]
      omega
    have hfracne : List.replicate (e - (natChars (m % 10 ^ e)).length) '0'
        ++ natChars (m % 10 ^ e) ≠ [] := by
      intro hcon
      exact natChars_ne_nil (m % 10 ^ e) (List.append_eq_nil.mp hcon).2
    have hsplit : (natChars (m / 10 ^ e) ++ '.' ::
        (List.replicate (e - (natChars (m % 10 ^ e)).length) '0' ++ natChars (m % 10 ^ e)))
        ++ rest
        = natChars (m / 10 ^ e) ++ '.' ::
          ((List.replicate (e - (natChars (m % 10 ^ e)).length) '0'
            ++ natChars (m % 10 ^ e)) ++ rest) := by
      simp [List.append_assoc]
    rw [hsplit]
    have hdotstop : noDigitHead ('.' ::
        ((List.replicate (e - (natChars (m % 10 ^ e)).length) '0'
          ++ natChars (m % 10 ^ e)) ++ rest)) := by
      show ('.' : Char).isDigit = false
      decide
    simp only [parseNumCore, takeDigits_append (natChars_digits (m / 10 ^ e)) hdotstop]
    rw [if_neg (natChars_ne_nil (m / 10 ^ e))]
    simp only [takeDigits_append hfracds hnd]
    rw [if_neg hfracne]
    rw [digitsVal_replicate_zero, digitsVal_natChars, digitsVal_natChars, hfraclen]
    have h10 : ((10:ℚ) ^ e) ≠ 0 := by positivity
    have hdm : m / 10 ^ e * 10 ^ e + m % 10 ^ e = m := by
      rw [Nat.mul_comm]
      exact Nat.div_add_mod m (10 ^ e)
    have hval : ((m / 10 ^ e : ℕ) : ℚ) + ((m % 10 ^ e : ℕ) : ℚ) / (10:ℚ) ^ e
        = (m : ℚ) / (10:ℚ) ^ e := by
      rw [eq_div_iff h10, add_mul, div_mul_cancel₀ _ h10]
      norm_cast
    rw [hval]

theorem scaled_value {q : ℚ} (hq : DecimalRep q) :
    ((q.num.natAbs * (10 ^ decExp q.den / q.den) : ℕ) : ℚ) / (10:ℚ) ^ decExp q.den
      = (q.num.natAbs : ℚ) / (q.den : ℚ) := by
  have hd : q.den ∣ 10 ^ decExp q.den := hq
  have hmul : (10 ^ decExp q.den / q.den) * q.den = 10 ^ decExp q.den :=
    Nat.div_mul_cancel hd
  have ht : 0 < 10 ^ decExp q.den / q.den :=
    Nat.div_pos (Nat.le_of_dvd (by positivity) hd) q.pos
  have ht' : ((10 ^ decExp q.den / q.den : ℕ) : ℚ) ≠ 0 := by
    exact_mod_cast Nat.pos_iff_ne_zero.mp ht
  have h1 : (10:ℚ) ^ decExp q.den
      = ((10 ^ decExp q.den / q.den : ℕ) : ℚ) * (q.den : ℚ) := by
    rw [← Nat.cast_mul, hmul]
    push_cast
    ring
  rw [h1, Nat.cast_mul, mul_comm ((q.num.natAbs : ℚ)) _, mul_div_mul_left _ _ ht']

theorem ratChars_value {q : ℚ} (hq : DecimalRep q) (hpos : ¬ q.num < 0) :
    ((q.num.natAbs * (10 ^ decExp q.den / q.den) : ℕ) : ℚ) / (10:ℚ) ^ decExp q.den = q := by
  rw [scaled_value hq]
  have h2 : ((q.num.natAbs : ℤ)) = q.num := Int.natAbs_of_nonneg (by omega)
  have h1 : ((q.num.natAbs : ℕ) : ℚ) = (q.num : ℚ) := by
    calc ((q.num.natAbs : ℕ) : ℚ)
        = (((q.num.natAbs : ℕ) : ℤ) : ℚ) := (Int.cast_natCast _).symm
      _ = (q.num : ℚ) := by rw [h2]
  rw [h1, Rat.num_div_den]

theorem ratChars_value_neg {q : ℚ} (hq : DecimalRep q) (hneg : q.num < 0) :
    -(((q.num.natAbs * (10 ^ decExp q.den / q.den) : ℕ) : ℚ) / (10:ℚ) ^ decExp q.den) = q := by
  rw [scaled_value hq]
  have h2 : ((q.num.natAbs : ℤ)) = -q.num := by omega
  have h1 : ((q.num.natAbs : ℕ) : ℚ) = -(q.num : ℚ) := by
    calc ((q.num.natAbs : ℕ) : ℚ)
        = (((q.num.natAbs : ℕ) : ℤ) : ℚ) := (Int.cast_natCast _).symm
      _ = ((-q.num : ℤ) : ℚ) := by rw [h2]
      _ = -(q.num : ℚ) := by push_cast; ring
  rw [h1, neg_div, neg_neg, Rat.num_div_den]

theorem scaledChars_cons (m e : Nat) :
    ∃ c cs, scaledChars m e = c :: cs ∧ c.isDigit = true := by
  unfold scaledChars
  by_cases he : e = 0
  · rw [if_pos he]
    exact natChars_cons m
  · rw [if_neg he]
    obtain ⟨c', cs', h', hd'⟩ := natChars_cons (m / 10 ^ e)
    refine ⟨c', cs' ++ '.' :: (List.replicate (e - (natChars (m % 10 ^ e)).length) '0'
      ++ natChars (m % 10 ^ e)), ?_, hd'⟩
    rw [h']
    simp

theorem parseNum_ratChars {q : ℚ} (hq : DecimalRep q) {rest : List Char}
    (hrest : numStopHead rest) :
    parseNum (ratChars q ++ rest) = some (q, rest) := by
  have hrc : ratChars q
      = if q.num < 0 then
          '-' :: scaledChars (q.num.natAbs * (10 ^ decExp q.den / q.den)) (decExp q.den)
        else scaledChars (q.num.natAbs * (10 ^ decExp q.den / q.den)) (decExp q.den) := rfl
  rw [hrc]
  by_cases hneg : q.num < 0
  · rw [if_pos hneg, List.cons_append]
    have hpn : parseNum ('-' :: (scaledChars (q.num.natAbs * (10 ^ decExp q.den / q.den))
        (decExp q.den) ++ rest))
        = (parseNumCore (scaledChars (q.num.natAbs * (10 ^ decExp q.den / q.den))
            (decExp q.den) ++ rest)).map (fun p => (-p.1, p.2)) := by
      simp [parseNum]
    rw [hpn, parseNumCore_scaledChars _ _ hrest]
    show some (-(((q.num.natAbs * (10 ^ decExp q.den / q.den) : ℕ) : ℚ)
        / (10:ℚ) ^ decExp q.den), rest) = some (q, rest)
    rw [ratChars_value_neg hq hneg]
  · rw [if_neg hneg]
    obtain ⟨c', cs', hsc', hcd'⟩ := scaledChars_cons
      (q.num.natAbs * (10 ^ decExp q.den / q.den)) (decExp q.den)
    rw [hsc', List.cons_append]
    have hcne : ¬ c' = '-' := ne_of_isDigit hcd' (by decide)
    have hpn : parseNum (c' :: (cs' ++ rest)) = parseNumCore (c' :: (cs' ++ rest)) := by
      simp [parseNum, hcne]
    rw [hpn, ← List.cons_append, ← hsc', parseNumCore_scaledChars _ _ hrest,
      ratChars_value hq hneg]

/- ### String and scalar parsing round trip -/

theorem parseStrChars_cons (c : Char) (rest : List Char) :
    parseStrChars (c :: rest)
      = if c = '"' then some ([], rest)
        else if c = '\\' then
          match rest with
          | [] => none
          | e :: rest2 =>
            if e = '"' ∨ e = '\\' then
              (parseStrChars rest2).map (fun p => (e :: p.1, p.2))
            else none
        else (parseStrChars rest).map (fun p => (c :: p.1, p.2)) := by
  conv_lhs => unfold parseStrChars

theorem parseStrChars_round (s : List Char) (rest : List Char) :
    parseStrChars (escapeChars s ++ '"' :: rest) = some (s, rest) := by
  induction s with
  | nil =>
    simp only [escapeChars, List.nil_append]
    rw [parseStrChars_cons, if_pos rfl]
  | cons c cs ih =>
    by_cases hc : c = '"' ∨ c = '\\'
    · simp only [escapeChars, if_pos hc, List.cons_append]
      rw [parseStrChars_cons, if_neg (by decide), if_pos rfl]
      simp only [if_pos hc, ih]
      rfl
    · have h1 : ¬ c = '"' := fun h => hc (Or.inl h)
      have h2 : ¬ c = '\\' := fun h => hc (Or.inr h)
      simp only [escapeChars, if_neg hc, List.cons_append]
      rw [parseStrChars_cons, if_neg h1, if_neg h2, ih]
      rfl

theorem parseScalar_not_special {c : Char} {cs : List Char}
    (h1 : ¬ c = '"') (h2 : ¬ c = 'n') (h3 : ¬ c = 't') (h4 : ¬ c = 'f') :
    parseScalar (c :: cs) = (parseNum (c :: cs)).map (fun p => (Json.num p.1, p.2)) := by
  simp [parseScalar, h1, h2, h3, h4]

theorem ratChars_cons_not_special (q : ℚ) :
    ∃ c cs, ratChars q = c :: cs
      ∧ ¬ c = '"' ∧ ¬ c = 'n' ∧ ¬ c = 't' ∧ ¬ c = 'f' := by
  have hrc : ratChars q
      = if q.num < 0 then
          '-' :: scaledChars (q.num.natAbs * (10 ^ decExp q.den / q.den)) (decExp q.den)
        else scaledChars (q.num.natAbs * (10 ^ decExp q.den / q.den)) (decExp q.den) := rfl
  by_cases hneg : q.num < 0
  · refine ⟨'-', scaledChars (q.num.natAbs * (10 ^ decExp q.den / q.den)) (decExp q.den),
      ?_, by decide, by decide, by decide, by decide⟩
    rw [hrc, if_pos hneg]
  · obtain ⟨c, cs, hsc, hcd⟩ := scaledChars_cons
      (q.num.natAbs * (10 ^ decExp q.den / q.den)) (decExp q.den)
    refine ⟨c, cs, ?_, ne_of_isDigit hcd (by decide), ne_of_isDigit hcd (by decide),
      ne_of_isDigit hcd (by decide), ne_of_isDigit hcd (by decide)⟩
    rw [hrc, if_neg hneg, hsc]

theorem parseScalar_round {j : Json} (hj : ScalarOK j) {rest : List Char}
    (hrest : numStopHead rest) :
    parseScalar (encodeScalarChars j ++ rest) = some (j, rest) := by
  cases j with
  | null => simp [encodeScalarChars, parseScalar]
  | bool b => cases b <;> simp [encodeScalarChars, parseScalar]
  | str s =>
    show parseScalar (strLitChars s ++ rest) = some (Json.str s, rest)
    unfold strLitChars
    rw [List.cons_append]
    have hassoc : (escapeChars s.data ++ ['"']) ++ rest
        = escapeChars s.data ++ '"' :: rest := by simp
    rw [hassoc]
    simp [parseScalar, parseStrChars_round]
  | num q =>
    have hq : DecimalRep q := hj
    show parseScalar (ratChars q ++ rest) = some (Json.num q, rest)
    obtain ⟨c, cs, hsc, h1, h2, h3, h4⟩ := ratChars_cons_not_special q
    rw [hsc, List.cons_append, parseScalar_not_special h1 h2 h3 h4,
      ← List.cons_append, ← hsc, parseNum_ratChars hq hrest]
    rfl
  | arr es => exact absurd hj (by simp [ScalarOK])
  | obj ms => exact absurd hj (by simp [ScalarOK])

/- ### Object members round trip -/


theorem numStopHead_of {c : Char} (h1 : c.isDigit = false) (h2 : c ≠ '.') (cs : List Char) :
    numStopHead (c :: cs) := by
  unfold numStopHead
  exact ⟨h1, h2⟩

theorem encodeMembersChars_cons_head (m : String × Json) (tl : List (String × Json)) :
    ∃ w, encodeMembersChars (m :: tl) = '"' :: w := by
  rcases tl with _ | ⟨m2, tl2⟩
  · exact ⟨(escapeChars m.1.data ++ ['"']) ++ ':' :: encodeScalarChars m.2,
      by simp [encodeMembersChars, strLitChars]⟩
  · exact ⟨(escapeChars m.1.data ++ ['"']) ++ ':' :: encodeScalarChars m.2
        ++ ',' :: encodeMembersChars (m2 :: tl2),
      by simp [encodeMembersChars, strLitChars]⟩

theorem parseMembers_round :
    ∀ (ms : List (String × Json)) (fuel : Nat) (rest : List Char),
      (∀ m ∈ ms, ScalarOK m.2) → ms.length < fuel →
      parseMembers fuel (encodeMembersChars ms ++ '}' :: rest) = some (ms, rest) := by
  intro ms
  induction ms with
  | nil =>
    intro fuel rest hok hf
    cases fuel with
    | zero => omega
    | succ fuel => simp [encodeMembersChars, parseMembers]
  | cons m tl ih =>
    intro fuel rest hok hf
    cases fuel with
    | zero => omega
    | succ fuel =>
      have hok1 : ScalarOK m.2 := hok m (by simp)
      rcases tl with _ | ⟨m2, tl2⟩
      · have hshape : encodeMembersChars [m] ++ '}' :: rest
            = '"' :: (escapeChars m.1.data ++ '"' ::
                (':' :: (encodeScalarChars m.2 ++ '}' :: rest))) := by
          simp [encodeMembersChars, strLitChars]
        rw [hshape]
        simp only [parseMembers]
        rw [parseStrChars_round]
        show (match parseScalar (encodeScalarChars m.2 ++ '}' :: rest) with
          | none => none
          | some (w, cs4) =>
            match cs4 with
            | ',' :: '"' :: cs5 =>
              match parseMembers fuel ('"' :: cs5) with
              | some (kvs, r) => some ((m.1, w) :: kvs, r)
              | none => none
            | '}' :: r => some ([(m.1, w)], r)
            | _ => none)
          = some ([m], rest)
        rw [parseScalar_round hok1 (numStopHead_of (by decide) (by decide) _)]
        simp
      · obtain ⟨w, hw⟩ := encodeMembersChars_cons_head m2 tl2
        have hshape : encodeMembersChars (m :: m2 :: tl2) ++ '}' :: rest
            = '"' :: (escapeChars m.1.data ++ '"' ::
                (':' :: (encodeScalarChars m.2 ++ ',' :: '"' :: (w ++ '}' :: rest)))) := by
          simp [encodeMembersChars, strLitChars, hw]
        rw [hshape]
        simp only [parseMembers]
        rw [parseStrChars_round]
        show (match parseScalar (encodeScalarChars m.2 ++ ',' :: '"' :: (w ++ '}' :: rest)) with
          | none => none
          | some (v, cs4) =>
            match cs4 with
            | ',' :: '"' :: cs5 =>
              match parseMembers fuel ('"' :: cs5) with
              | some (kvs, r) => some ((m.1, v) :: kvs, r)
              | none => none
            | '}' :: r => some ([(m.1, v)], r)
            | _ => none)
          = some (m :: m2 :: tl2, rest)
        rw [parseScalar_round hok1 (numStopHead_of (by decide) (by decide) _)]
        show (match parseMembers fuel ('"' :: (w ++ '}' :: rest)) with
          | some (kvs, r) => some ((m.1, m.2) :: kvs, r)
          | none => none)
          = some (m :: m2 :: tl2, rest)
        have hback : ('"' :: (w ++ '}' :: rest))
            = encodeMembersChars (m2 :: tl2) ++ '}' :: rest := by
          rw [hw]
          simp
        rw [hback, ih fuel rest (fun x hx => hok x (by simp [hx])) (by simp at hf ⊢; omega)]

/- ### Array elements round trip -/

theorem ratChars_cons_shape (q : ℚ) :
    ∃ c cs, ratChars q = c :: cs ∧ (c = '-' ∨ c.isDigit = true) := by
  have hrc : ratChars q
      = if q.num < 0 then
          '-' :: scaledChars (q.num.natAbs * (10 ^ decExp q.den / q.den)) (decExp q.den)
        else scaledChars (q.num.natAbs * (10 ^ decExp q.den / q.den)) (decExp q.den) := rfl
  by_cases hneg : q.num < 0
  · refine ⟨'-', scaledChars (q.num.natAbs * (10 ^ decExp q.den / q.den)) (decExp q.den),
      ?_, Or.inl rfl⟩
    rw [hrc, if_pos hneg]
  · obtain ⟨c, cs, h, hd⟩ := scaledChars_cons
      (q.num.natAbs * (10 ^ decExp q.den / q.den)) (decExp q.den)
    refine ⟨c, cs, ?_, Or.inr hd⟩
    rw [hrc, if_neg hneg, h]

theorem encodeScalarChars_cons (j : Json) (hj : ScalarOK j) :
    ∃ c cs, encodeScalarChars j = c :: cs
      ∧ c ≠ '{' ∧ c ≠ '[' ∧ c ≠ ']' := by
  cases j with
  | null => exact ⟨'n', ['u', 'l', 'l'], rfl, by decide, by decide, by decide⟩
  | bool b =>
    cases b
    · exact ⟨'f', ['a', 'l', 's', 'e'], rfl, by decide, by decide, by decide⟩
    · exact ⟨'t', ['r', 'u', 'e'], rfl, by decide, by decide, by decide⟩
  | str s =>
    exact ⟨'"', escapeChars s.data ++ ['"'], rfl, by decide, by decide, by decide⟩
  | num q =>
    obtain ⟨c, cs, h, hd⟩ := ratChars_cons_shape q
    rcases hd with hd | hd
    · exact ⟨c, cs, h, by rw [hd]; decide, by rw [hd]; decide, by rw [hd]; decide⟩
    · exact ⟨c, cs, h, ne_of_isDigit hd (by decide), ne_of_isDigit hd (by decide),
        ne_of_isDigit hd (by decide)⟩
  | arr es => exact absurd hj (by simp [ScalarOK])
  | obj ms => exact absurd hj (by simp [ScalarOK])

theorem parseElem_obj_round (fuel : Nat) (ms : List (String × Json)) (rest : List Char)
    (hok : ∀ m ∈ ms, ScalarOK m.2) (hf : ms.length < fuel) :
    parseElem fuel (encodeObjChars ms ++ rest) = some (Json.obj ms, rest) := by
  have hshape : encodeObjChars ms ++ rest
      = '{' :: (encodeMembersChars ms ++ '}' :: rest) := by
    simp [encodeObjChars]
  rw [hshape]
  simp only [parseElem, if_pos rfl]
  show (parseMembers fuel (encodeMembersChars ms ++ '}' :: rest)).map
      (fun p => (Json.obj p.1, p.2))
    = some (Json.obj ms, rest)
  rw [parseMembers_round ms fuel rest hok hf]
  rfl

theorem parseElem_scalar_round (fuel : Nat) (j : Json) (hj : ScalarOK j)
    {rest : List Char} (hrest : numStopHead rest) :
    parseElem fuel (encodeScalarChars j ++ rest) = some (j, rest) := by
  obtain ⟨c, cs, hc, h1, _, _⟩ := encodeScalarChars_cons j hj
  rw [hc, List.cons_append]
  simp only [parseElem, if_neg h1]
  rw [← List.cons_append, ← hc, parseScalar_round hj hrest]

theorem parseElem_round (fuel : Nat) {e : Json} (he : ElemOK e)
    (hfm : ∀ ms, e = Json.obj ms → ms.length < fuel)
    {rest : List Char} (hrest : numStopHead rest) :
    parseElem fuel (encodeElemChars e ++ rest) = some (e, rest) := by
  cases e with
  | obj ms =>
    have hok : ∀ m ∈ ms, ScalarOK m.2 := he
    exact parseElem_obj_round fuel ms rest hok (hfm ms rfl)
  | null => exact parseElem_scalar_round fuel Json.null he hrest
  | bool b => exact parseElem_scalar_round fuel (Json.bool b) he hrest
  | num q => exact parseElem_scalar_round fuel (Json.num q) he hrest
  | str s => exact parseElem_scalar_round fuel (Json.str s) he hrest
  | arr es => exact absurd he (by simp [ElemOK, ScalarOK])

theorem encodeElemChars_cons {e : Json} (he : ElemOK e) :
    ∃ c cs, encodeElemChars e = c :: cs ∧ c ≠ ']' := by
  cases e with
  | obj ms =>
    exact ⟨'{', encodeMembersChars ms ++ ['}'], rfl, by decide⟩
  | arr es => exact absurd he (by simp [ElemOK, ScalarOK])
  | null =>
    obtain ⟨c, cs, hc, _, _, h3⟩ := encodeScalarChars_cons Json.null trivial
    exact ⟨c, cs, hc, h3⟩
  | bool b =>
    obtain ⟨c, cs, hc, _, _, h3⟩ := encodeScalarChars_cons (Json.bool b) trivial
    exact ⟨c, cs, hc, h3⟩
  | num q =>
    obtain ⟨c, cs, hc, _, _, h3⟩ := encodeScalarChars_cons (Json.num q) he
    exact ⟨c, cs, hc, h3⟩
  | str s =>
    obtain ⟨c, cs, hc, _, _, h3⟩ := encodeScalarChars_cons (Json.str s) trivial
    exact ⟨c, cs, hc, h3⟩

theorem parseElems_round :
    ∀ (es : List Json) (fuel : Nat) (rest : List Char),
      (∀ e ∈ es, ElemOK e) →
      (∀ e ∈ es, ∀ ms, e = Json.obj ms → ms.length + es.length < fuel) →
      es.length < fuel →
      parseElems fuel (encodeElemsChars es ++ ']' :: rest) = some (es, rest) := by
  intro es
  induction es with
  | nil =>
    intro fuel rest hok hfm hf
    cases fuel with
    | zero => omega
    | succ fuel => simp [encodeElemsChars, parseElems]
  | cons e tl ih =>
    intro fuel rest hok hfm hf
    cases fuel with
    | zero => omega
    | succ fuel =>
      have he : ElemOK e := hok e (by simp)
      have hfm1 : ∀ ms, e = Json.obj ms → ms.length < fuel := by
        intro ms hms
        have := hfm e (by simp) ms hms
        simp at this
        omega
      obtain ⟨c, cs, hc, hcne⟩ := encodeElemChars_cons he
      rcases tl with _ | ⟨e2, tl2⟩
      · have hshape : encodeElemsChars [e] ++ ']' :: rest
            = c :: (cs ++ ']' :: rest) := by
          simp [encodeElemsChars, hc]
        rw [hshape]
        simp only [parseElems, if_neg hcne]
        have hrest : numStopHead (']' :: rest) := numStopHead_of (by decide) (by decide) _
        have helem := parseElem_round fuel he hfm1 hrest
        rw [hc, List.cons_append] at helem
        rw [helem]
        rfl
      · have hshape : encodeElemsChars (e :: e2 :: tl2) ++ ']' :: rest
            = c :: (cs ++ ',' :: (encodeElemsChars (e2 :: tl2) ++ ']' :: rest)) := by
          simp [encodeElemsChars, hc]
        rw [hshape]
        simp only [parseElems, if_neg hcne]
        have hrest : numStopHead (',' :: (encodeElemsChars (e2 :: tl2) ++ ']' :: rest)) :=
          numStopHead_of (by decide) (by decide) _
        have helem := parseElem_round fuel he hfm1 hrest
        rw [hc, List.cons_append] at helem
        rw [helem]
        show (match parseElems fuel (encodeElemsChars (e2 :: tl2) ++ ']' :: rest) with
          | some (vs, r) => some (e :: vs, r)
          | none => none)
          = some (e :: e2 :: tl2, rest)
        rw [ih fuel rest (fun x hx => hok x (by simp [hx]))
          (by
            intro x hx ms hms
            have := hfm x (by simp [hx]) ms hms
            simp at this ⊢
            omega)
          (by simp at hf ⊢; omega)]

/- ### Length bounds and top-level parse round trip -/

theorem length_encodeMembersChars (ms : List (String × Json)) :
    ms.length ≤ (encodeMembersChars ms).length := by
  induction ms with
  | nil => simp [encodeMembersChars]
  | cons m tl ih =>
    rcases tl with _ | ⟨m2, tl2⟩
    · simp [encodeMembersChars, strLitChars]
    · simp only [encodeMembersChars, List.length_append, List.length_cons] at ih ⊢
      omega

theorem length_encodeScalarChars {j : Json} (hj : ScalarOK j) :
    1 ≤ (encodeScalarChars j).length := by
  obtain ⟨c, cs, hc, _⟩ := encodeScalarChars_cons j hj
  rw [hc]
  simp

theorem length_encodeElemChars_pos {e : Json} (he : ElemOK e) :
    1 ≤ (encodeElemChars e).length := by
  cases e with
  | obj ms => simp [encodeElemChars, encodeObjChars]
  | arr es => exact absurd he (by simp [ElemOK, ScalarOK])
  | null => simp [encodeElemChars, encodeScalarChars]
  | bool b => cases b <;> simp [encodeElemChars, encodeScalarChars]
  | num q =>
    have h := length_encodeScalarChars (j := Json.num q) he
    simpa [encodeElemChars] using h
  | str s => simp [encodeElemChars, encodeScalarChars, strLitChars]

theorem length_encodeElemChars_obj (ms : List (String × Json)) :
    ms.length + 1 ≤ (encodeElemChars (Json.obj ms)).length := by
  have := length_encodeMembersChars ms
  simp only [encodeElemChars, encodeObjChars, List.length_cons, List.length_append]
  omega

theorem length_encodeElemsChars (es : List Json) (hok : ∀ e ∈ es, ElemOK e) :
    es.length ≤ (encodeElemsChars es).length := by
  induction es with
  | nil => simp [encodeElemsChars]
  | cons e tl ih =>
    have he := hok e (by simp)
    have h1 := length_encodeElemChars_pos he
    rcases tl with _ | ⟨e2, tl2⟩
    · simp only [encodeElemsChars, List.length_singleton]
      omega
    · have h2 := ih (fun x hx => hok x (by simp [hx]))
      simp only [encodeElemsChars, List.length_cons, List.length_append] at h2 ⊢
      omega

theorem size_bound_encodeElemsChars (es : List Json) (hok : ∀ e ∈ es, ElemOK e) :
    ∀ e ∈ es, ∀ ms, e = Json.obj ms →
      ms.length + es.length ≤ (encodeElemsChars es).length := by
  induction es with
  | nil => intro e he; simp at he
  | cons e1 tl ih =>
    intro e he ms hms
    rcases List.mem_cons.mp he with rfl | htl
    · rw [hms]
      have hlen1 := length_encodeElemChars_obj ms
      rcases tl with _ | ⟨e2, tl2⟩
      · simpa [encodeElemsChars] using hlen1
      · have h2 := length_encodeElemsChars (e2 :: tl2) (fun x hx => hok x (by simp [hx]))
        simp only [encodeElemsChars, List.length_cons, List.length_append] at h2 hlen1 ⊢
        omega
    · rcases tl with _ | ⟨e2, tl2⟩
      · simp at htl
      · have h2 := ih (fun x hx => hok x (by simp [hx])) e htl ms hms
        have hlen1 := length_encodeElemChars_pos (hok e1 (by simp))
        simp only [encodeElemsChars, List.length_cons, List.length_append] at h2 ⊢
        omega

theorem jsonParse_encodeObj (ms : List (String × Json))
    (hok : ∀ m ∈ ms, ScalarOK m.2) :
    jsonParse ⟨encodeObjChars ms⟩ = some (Json.obj ms) := by
  unfold jsonParse
  show (match parseVal ((encodeObjChars ms).length + 1) (encodeObjChars ms) with
    | some (j, []) => some j
    | _ => none) = some (Json.obj ms)
  have hshape : encodeObjChars ms = '{' :: (encodeMembersChars ms ++ '}' :: []) := rfl
  rw [hshape]
  simp only [parseVal, parseObj]
  rw [parseMembers_round ms _ [] hok
    (by
      have h1 := length_encodeMembersChars ms
      simp only [List.length_cons, List.length_append]
      omega)]
  rfl

theorem jsonParse_encodeArr (es : List Json) (hok : ∀ e ∈ es, ElemOK e) :
    jsonParse ⟨encodeArrChars es⟩ = some (Json.arr es) := by
  unfold jsonParse
  show (match parseVal ((encodeArrChars es).length + 1) (encodeArrChars es) with
    | some (j, []) => some j
    | _ => none) = some (Json.arr es)
  have hshape : encodeArrChars es = '[' :: (encodeElemsChars es ++ ']' :: []) := rfl
  rw [hshape]
  simp only [parseVal]
  rw [parseElems_round es _ [] hok
    (by
      intro e he ms hms
      have h1 := size_bound_encodeElemsChars es hok e he ms hms
      simp only [List.length_cons, List.length_append] at h1 ⊢
      omega)
    (by
      have h1 := length_encodeElemsChars es hok
      simp only [List.length_cons, List.length_append]
      omega)]
  rfl

/- ### Persistence round trip (claims C4 and C9) -/

theorem decimalRep_intCast (z : ℤ) : DecimalRep ((z : ℚ)) := by
  unfold DecimalRep
  rw [Rat.den_intCast]
  exact one_dvd _

theorem jsonToCart_cartToJson (c : Ecom.Cart) :
    Ecom.jsonToCart (Ecom.cartToJson c) = some c := by
  show List.foldr
      (fun kv acc =>
        match kv.2, acc with
        | Json.num q, some c => if q.den = 1 then some ((kv.1, q.num) :: c) else none
        | _, _ => none)
      (some [])
      (c.map (fun e => (e.1, Json.num (e.2 : ℚ))))
      = some c
  induction c with
  | nil => rfl
  | cons e tl ih =>
    simp only [List.map_cons, List.foldr_cons, ih]
    simp [Rat.den_intCast, Rat.num_intCast]

theorem scalarOK_cartToJson (c : Ecom.Cart) :
    ∀ m ∈ c.map (fun e => (e.1, Json.num (e.2 : ℚ))), ScalarOK m.2 := by
  intro m hm
  obtain ⟨e, he, hfe⟩ := List.mem_map.mp hm
  rw [← hfe]
  exact decimalRep_intCast e.2

theorem loadCart_saveCart (s : Storage) (c : Ecom.Cart) :
    Ecom.loadCart (Ecom.saveCart s c) = Ecom.cartToJson c := by
  unfold Ecom.loadCart Ecom.saveCart
  rw [Storage.getItem_setItem_self]
  show (match jsonParse (Ecom.stringifyCart c) with
    | none => Json.obj []
    | some j => j) = Ecom.cartToJson c
  have hparse : jsonParse (Ecom.stringifyCart c) = some (Ecom.cartToJson c) := by
    show jsonParse ⟨encodeObjChars (c.map (fun e => (e.1, Json.num (e.2 : ℚ))))⟩
      = some (Ecom.cartToJson c)
    rw [jsonParse_encodeObj _ (scalarOK_cartToJson c)]
    rfl
  rw [hparse]

theorem elemOK_itemsToJson (items : List Shop.Item)
    (hp : ∀ it ∈ items, DecimalRep it.price) :
    ∀ e ∈ items.map (fun it =>
      Json.obj
        [ ("id", Json.num (it.id : ℚ)), ("name", Json.str it.name)
        , ("price", Json.num it.price), ("quantity", Json.num (it.quantity : ℚ)) ]),
      ElemOK e := by
  intro e he
  obtain ⟨it, hit, hfe⟩ := List.mem_map.mp he
  rw [← hfe]
  show ∀ m ∈ [ (("id" : String), Json.num (it.id : ℚ)), ("name", Json.str it.name)
    , ("price", Json.num it.price), ("quantity", Json.num (it.quantity : ℚ)) ], ScalarOK m.2
  intro m hm
  simp only [List.mem_cons, List.not_mem_nil, or_false] at hm
  rcases hm with rfl | rfl | rfl | rfl
  · exact decimalRep_intCast it.id
  · trivial
  · exact hp it hit
  · exact decimalRep_intCast it.quantity

theorem jsonToItems_itemsToJson (items : List Shop.Item) :
    Shop.jsonToItems (Shop.itemsToJson items) = some items := by
  show List.foldr
      (fun e acc =>
        match e, acc with
        | Json.obj [("id", Json.num i), ("name", Json.str n),
            ("price", Json.num p), ("quantity", Json.num qn)], some its =>
          if i.den = 1 ∧ qn.den = 1 then
            some ({ id := i.num, name := n, price := p, quantity := qn.num } :: its)
          else none
        | _, _ => none)
      (some [])
      (items.map (fun it =>
        Json.obj
          [ ("id", Json.num (it.id : ℚ)), ("name", Json.str it.name)
          , ("price", Json.num it.price), ("quantity", Json.num (it.quantity : ℚ)) ]))
      = some items
  induction items with
  | nil => rfl
  | cons it tl ih =>
    simp only [List.map_cons, List.foldr_cons, ih]
    simp [Rat.den_intCast, Rat.num_intCast]

theorem loadCartFromStorage_save (s : Storage) (items : List Shop.Item)
    (hp : ∀ it ∈ items, DecimalRep it.price) :
    Shop.loadCartFromStorage (Shop.saveCartToStorage s items)
      = Shop.LoadResult.loaded (Shop.itemsToJson items) := by
  unfold Shop.loadCartFromStorage Shop.saveCartToStorage
  rw [Storage.getItem_setItem_self]
  show (match jsonParse (Shop.stringifyItems items) with
    | none => Shop.LoadResult.parseError
    | some j => Shop.LoadResult.loaded j)
    = Shop.LoadResult.loaded (Shop.itemsToJson items)
  have hparse : jsonParse (Shop.stringifyItems items) = some (Shop.itemsToJson items) := by
    show jsonParse ⟨encodeArrChars (items.map (fun it =>
        Json.obj
          [ ("id", Json.num (it.id : ℚ)), ("name", Json.str it.name)
          , ("price", Json.num it.price), ("quantity", Json.num (it.quantity : ℚ)) ]))⟩
      = some (Shop.itemsToJson items)
    rw [jsonParse_encodeArr _ (elemOK_itemsToJson items hp)]
    rfl
  rw [hparse]

/-- Claim C4: round-trip through persistence is the identity — saving a
cart and loading it back yields the cart state that was saved, in the
object-based cart (unconditionally) and in the array-based cart (for
items whose prices have terminating decimal renderings, as all prices
in the source do). -/
theorem claim_C4_persistence_roundtrip :
    (∀ (s : Storage) (c : Ecom.Cart),
      Ecom.loadCart (Ecom.saveCart s c) = Ecom.cartToJson c
      ∧ Ecom.jsonToCart (Ecom.loadCart (Ecom.saveCart s c)) = some c)
    ∧ ∀ (s : Storage) (items : List Shop.Item),
        (∀ it ∈ items, DecimalRep it.price) →
        Shop.loadCartFromStorage (Shop.saveCartToStorage s items)
          = Shop.LoadResult.loaded (Shop.itemsToJson items)
        ∧ Shop.jsonToItems (Shop.itemsToJson items) = some items := by
  constructor
  · intro s c
    refine ⟨loadCart_saveCart s c, ?_⟩
    rw [loadCart_saveCart s c]
    exact jsonToCart_cartToJson c
  · intro s items hp
    exact ⟨loadCartFromStorage_save s items hp, jsonToItems_itemsToJson items⟩

/-- Witness for C4 at a concrete storage, cart and items array. -/
theorem claim_C4_witness :
    (Ecom.loadCart (Ecom.saveCart [] [("p1", 2)]) = Ecom.cartToJson [("p1", 2)]
      ∧ Ecom.jsonToCart (Ecom.loadCart (Ecom.saveCart [] [("p1", 2)])) = some [("p1", 2)])
    ∧ Shop.loadCartFromStorage
        (Shop.saveCartToStorage [] [{ id := 1, name := "A", price := 5, quantity := 2 }])
        = Shop.LoadResult.loaded
            (Shop.itemsToJson [{ id := 1, name := "A", price := 5, quantity := 2 }])
    ∧ Shop.jsonToItems (Shop.itemsToJson [{ id := 1, name := "A", price := 5, quantity := 2 }])
        = some [{ id := 1, name := "A", price := 5, quantity := 2 }] :=
  ⟨claim_C4_persistence_roundtrip.1 [] [("p1", 2)],
    claim_C4_persistence_roundtrip.2 [] [{ id := 1, name := "A", price := 5, quantity := 2 }]
      (by
        intro it hmem
        simp only [List.mem_singleton] at hmem
        subst hmem
        show DecimalRep (5 : ℚ)
        unfold DecimalRep
        rw [Rat.den_ofNat]
        exact one_dvd _)⟩

/-- Claim C9 counterexample: a stored blob that is valid JSON but not
an object — here the blob `true` — is returned by `loadCart` as-is: the
result is the boolean `true`, not a cart object, refuting "loadCart
returns a cart object" for every storage content. -/
theorem claim_C9_counterexample :
    Ecom.loadCart [(Ecom.CART_KEY, "true")] = Json.bool true
    ∧ Ecom.jsonToCart (Json.bool true) = none :=
  ⟨rfl, rfl⟩

/-- Claim C9 as amended: `loadCart` is total — it returns the empty
object when the key is missing or the blob fails to parse (the
`catch`), and otherwise returns the parsed JSON value, which equals the
saved cart for blobs written by `saveCart` but need not be a cart
object for arbitrary blobs. -/
theorem claim_C9_loadCart_total (s : Storage) :
    (Storage.getItem s Ecom.CART_KEY = none → Ecom.loadCart s = Json.obj [])
    ∧ (∀ raw, Storage.getItem s Ecom.CART_KEY = some raw → jsonParse raw = none →
        Ecom.loadCart s = Json.obj [])
    ∧ (∀ raw j, Storage.getItem s Ecom.CART_KEY = some raw → jsonParse raw = some j →
        Ecom.loadCart s = j) := by
  refine ⟨?_, ?_, ?_⟩
  · intro h
    unfold Ecom.loadCart
    rw [h]
  · intro raw h hp
    unfold Ecom.loadCart
    rw [h]
    show (match jsonParse raw with
      | none => Json.obj []
      | some j => j) = Json.obj []
    rw [hp]
  · intro raw j h hp
    unfold Ecom.loadCart
    rw [h]
    show (match jsonParse raw with
      | none => Json.obj []
      | some j => j) = j
    rw [hp]

/-- Witness for the amended C9 at concrete storages. -/
theorem claim_C9_witness :
    Ecom.loadCart [] = Json.obj []
    ∧ Ecom.loadCart [(Ecom.CART_KEY, "not json")] = Json.obj []
    ∧ Ecom.loadCart [(Ecom.CART_KEY, "null")] = Json.null :=
  ⟨(claim_C9_loadCart_total []).1 rfl,
    (claim_C9_loadCart_total [(Ecom.CART_KEY, "not json")]).2.1 "not json" rfl rfl,
    (claim_C9_loadCart_total [(Ecom.CART_KEY, "null")]).2.2 "null" Json.null rfl rfl⟩
